import Mathlib

/-!
Verification of the wxvx forecast-verification pipeline specification
against a shallow embedding of the repository's Python source.

Modules embedded (from src/src/wxvx):
  * workflow.py : `proxy` — the idempotent asset-readiness cache
  * util.py     : `expand` — range expansion (identical to times._enumerate)
  * times.py    : `TimeCoords` — cycle/leadtime coordinates
  * net.py      : `fetch`, `status` — partial-content fetch client
  * workflow.py : `_grib_index_data` — GRIB index byte-range resolver
  * variables.py: `Var`, `GFS` — variable canonicalization
  * metconf.py  : `render` — MET config serialization

Machine conventions: Python datetimes and timedeltas are embedded as
integer microseconds (Python's datetime resolution); Python's numeric
tower (int/float level values, equal across types when numerically
equal) is embedded as rationals tagged with their original type.
-/

namespace Wxvx

/-! ## workflow.proxy — the idempotent asset cache

The inner closure of `proxy` (workflow.py lines 54-71) reads the
thread-local dbm store at key `str(path)`:

    try:
        val = db[key]
    except KeyError:
        exists = False
        db[key] = exists
    else:
        exists = bool(int(val))
        if not exists:
            exists = path.is_file()
            if exists:
                db[key] = exists
    return exists

One call is a function of the remembered value for the key (`none`
when the key is absent from the store) and of whether the file exists
on disk at the moment of the probe.  It returns the call's result and
the new remembered value. -/
def proxyStep (stored : Option Bool) (fsExists : Bool) : Bool × Option Bool :=
  match stored with
  | none => (false, some false)
  | some true => (true, some true)
  | some false =>
      if fsExists then (true, some true) else (false, some false)

/-- Run the readiness predicate once per element of `fss`, where `fss`
lists the file's existence on disk at each successive call; returns the
list of results. -/
def proxyRun (stored : Option Bool) (fss : List Bool) : List Bool :=
  match fss with
  | [] => []
  | fs :: rest =>
      let (r, stored') := proxyStep stored fs
      r :: proxyRun stored' rest

/-! ## util.expand (identical body: times._enumerate)

    def expand(start, step, stop):
        if stop < start:
            raise WXVXError("Stop time %s precedes start time %s" % (stop, start))
        xs = [start]
        while (x := xs[-1]) < stop:
            xs.append(x + step)
        return xs

Datetimes/timedeltas are embedded as integers (microseconds).  The
`while` loop is embedded fuel-indexed: `none` means the fuel ran out
before the loop finished, so divergence of the Python loop is the
statement `∀ fuel, ... = none`. -/
inductive PyError where
  | wxvxError : String → PyError
  deriving DecidableEq, Repr

def expandGo (step stop : Int) (fuel : Nat) (xs : List Int) : Option (List Int) :=
  match fuel with
  | 0 => none
  | fuel + 1 =>
      match xs.getLast? with
      | none => none
      | some x => if x < stop then expandGo step stop fuel (xs ++ [x + step]) else some xs

def expand (start step stop : Int) (fuel : Nat) : Option (Except PyError (List Int)) :=
  if stop < start then
    some (Except.error (PyError.wxvxError "Stop time precedes start time"))
  else
    (expandGo step stop fuel [start]).map Except.ok

/-- The mathematical value of the `while` loop of `expand` when `step`
is positive: the sequence `x, x+step, ...` up to and including the
first element `≥ stop`. -/
def loopSeq (step stop : Int) (hstep : 0 < step) (x : Int) : List Int :=
  if _h : x < stop then x :: loopSeq step stop hstep (x + step) else [x]
  termination_by (stop - x).toNat
  decreasing_by omega

/-! ## times.TimeCoords

    class TimeCoords:
        def __init__(self, cycle, leadtime=0):
            self.cycle = cycle.replace(tzinfo=None)
            self.leadtime = timedelta(hours=leadtime) if isinstance(leadtime, int) else leadtime
            self.validtime = self.cycle + self.leadtime
        def __eq__(self, other): return hash(self) == hash(other)
        def __hash__(self): return int(self.validtime.timestamp())
        def __lt__(self, other): return hash(self) < hash(other)

Datetimes and timedeltas are embedded as integer microseconds (Python's
datetime resolution), naive timestamps taken against UTC (the code
strips tzinfo, commenting "All wxvx times are UTC").
`int(validtime.timestamp())` truncates the epoch value in seconds
toward zero, which on whole microseconds is `Int.tdiv _ 1000000`. -/
structure TimeCoords where
  cycle : Int
  leadtime : Int
  deriving DecidableEq, Repr

def TimeCoords.validtime (tc : TimeCoords) : Int :=
  tc.cycle + tc.leadtime

def TimeCoords.pyHash (tc : TimeCoords) : Int :=
  Int.tdiv tc.validtime 1000000

def tcEq (a b : TimeCoords) : Bool :=
  a.pyHash == b.pyHash

def tcLt (a b : TimeCoords) : Bool :=
  a.pyHash < b.pyHash

/-! ## net.fetch and net.status

    def fetch(taskname, url, path, headers=None) -> bool:
        response = session().get(url, allow_redirects=True, stream=True,
                                 timeout=TIMEOUT, headers=headers or {})
        expected = HTTPStatus.PARTIAL_CONTENT if headers and "Range" in headers else HTTPStatus.OK
        if response.status_code == expected:
            with atomic(path) as tmp, tmp.open("wb") as f: ...write body...
            return True
        return False

    def status(url) -> int:
        return session().head(url, timeout=TIMEOUT).status_code

The underlying HTTP library call either produces a response with a
status code or raises (timeout / connection error); neither `fetch` nor
`status` wraps the call in any exception handler, so a raise propagates.
The embedding makes the call's outcome an explicit argument and returns
`Except`: `Except.error` is an exception crossing the function boundary.
`FetchEffect.wrote` records whether the destination file was written
(the `atomic` temp-file-then-rename write, abstracted to all-or-nothing). -/
inductive NetErr where
  | timeout : NetErr
  | connectionError : NetErr
  deriving DecidableEq, Repr

inductive ReqOutcome where
  | response : Nat → ReqOutcome
  | failure : NetErr → ReqOutcome
  deriving DecidableEq, Repr

structure FetchEffect where
  returned : Bool
  wrote : Bool
  deriving DecidableEq, Repr

/-- Python truthiness of `headers and "Range" in headers`: `None` and the
empty dict are falsy; otherwise dict key membership. -/
def hasRangeHeader (headers : Option (List (String × String))) : Bool :=
  match headers with
  | none => false
  | some hs => !hs.isEmpty && hs.any (fun kv => kv.1 == "Range")

def fetch (headers : Option (List (String × String))) (outcome : ReqOutcome) :
    Except NetErr FetchEffect :=
  match outcome with
  | ReqOutcome.failure e => Except.error e
  | ReqOutcome.response code =>
      let expected := if hasRangeHeader headers then 206 else 200
      if code == expected then Except.ok ⟨true, true⟩ else Except.ok ⟨false, false⟩

def status (outcome : ReqOutcome) : Except NetErr Nat :=
  match outcome with
  | ReqOutcome.failure e => Except.error e
  | ReqOutcome.response code => Except.ok code

/-! ## variables.Var, variables.GFS and workflow._grib_index_data

`_levelstr2num` returns `int(s)` when the numeral has no decimal point
and `float(s)` otherwise; Python's `==`/`hash` identify `900` and
`900.0`, so level equality is on the numeric value, while the int/float
tag affects only `__str__` formatting. -/
structure PyNum where
  val : Rat
  isFloat : Bool
  deriving DecidableEq, Repr

def pynumEq (a b : PyNum) : Bool :=
  a.val == b.val

/-- `variables.Var`: canonical name, level type, optional numeric level. -/
structure Var where
  name : String
  level_type : String
  level : Option PyNum
  deriving DecidableEq, Repr

/-- `Var.__eq__` / `Var.__hash__`: identity is `(name, level_type,
level)` with numeric levels compared by value. -/
def varEq (a b : Var) : Bool :=
  a.name == b.name && a.level_type == b.level_type &&
    match a.level, b.level with
    | none, none => true
    | some x, some y => pynumEq x y
    | _, _ => false

def digitsToNat (cs : List Char) : Nat :=
  cs.foldl (fun a c => a * 10 + (c.toNat - 48)) 0

/-- Python `str.split(sep)` for a one-character separator, keeping empty
fields (structural recursion over the characters). -/
def splitChar (sep : Char) : List Char → List (List Char)
  | [] => [[]]
  | c :: rest =>
      if c == sep then [] :: splitChar sep rest
      else
        match splitChar sep rest with
        | h :: t => (c :: h) :: t
        | [] => [[c]]

def pySplit (sep : Char) (s : String) : List String :=
  (splitChar sep s.data).map String.mk

/-- Python `str.strip()`. -/
def pyStrip (s : String) : String :=
  String.mk
    (((s.data.dropWhile Char.isWhitespace).reverse.dropWhile Char.isWhitespace).reverse)

/-- `_levelstr2num` applied to a string matched by `\d+(\.\d+)?`:
`int` when no decimal point, `float` otherwise; `none` when the string
is not such a numeral (the enclosing regex then fails to match). -/
def parseLevelNum (s : String) : Option PyNum :=
  match splitChar '.' s.data with
  | [i] =>
      if !i.isEmpty && i.all Char.isDigit then
        some ⟨(digitsToNat i : Nat), false⟩
      else none
  | [i, f] =>
      if !i.isEmpty && i.all Char.isDigit && !f.isEmpty && f.all Char.isDigit then
        some ⟨(digitsToNat i : Nat) + (digitsToNat f : Rat) / (10 ^ f.length), true⟩
      else none
  | _ => none

/-- `GFS._levinfo`: the ordered regex match against the level
description string. -/
def levinfo (levstr : String) : String × Option PyNum :=
  if levstr == "entire atmosphere" then ("atmosphere", none)
  else if " m above ground".data.isSuffixOf levstr.data then
    match parseLevelNum
        (String.mk (levstr.data.take (levstr.data.length - " m above ground".length))) with
    | some n => ("heightAboveGround", some n)
    | none => ("unknown", none)
  else if " mb".data.isSuffixOf levstr.data then
    match parseLevelNum (String.mk (levstr.data.take (levstr.data.length - " mb".length))) with
    | some n => ("isobaricInhPa", some n)
    | none => ("unknown", none)
  else if levstr == "surface" then ("surface", none)
  else ("unknown", none)

/-- `GFS._canonicalize`: provider (name, level-type) to canonical name. -/
def canonicalize (name level_type : String) : String :=
  if name == "HGT" && level_type == "isobaricInhPa" then "gh"
  else if name == "REFC" && level_type == "atmosphere" then "refc"
  else if name == "SPFH" && level_type == "isobaricInhPa" then "q"
  else if name == "TMP" && level_type == "heightAboveGround" then "2t"
  else if name == "TMP" && level_type == "isobaricInhPa" then "t"
  else if name == "UGRD" && level_type == "isobaricInhPa" then "u"
  else if name == "VGRD" && level_type == "isobaricInhPa" then "v"
  else if name == "VVEL" && level_type == "isobaricInhPa" then "w"
  else "unknown"

/-- `variables.GFS`: a `Var` additionally carrying the byte range;
`lastbyte` of `None` means "no upper bound". -/
structure GFSVar extends Var where
  firstbyte : Int
  lastbyte : Option Int
  deriving DecidableEq, Repr

/-- `GFS.__init__(name, levstr, firstbyte, lastbyte)`. -/
def mkGFS (name levstr : String) (firstbyte lastbyte : Int) : GFSVar :=
  { name := canonicalize name (levinfo levstr).1
    level_type := (levinfo levstr).1
    level := (levinfo levstr).2
    firstbyte := firstbyte
    lastbyte := if lastbyte > -1 then some lastbyte else none }

def padZero (w : Nat) (s : String) : String :=
  if s.length < w then String.mk (List.replicate (w - s.length) '0') ++ s else s

/-- Number of digits after the decimal point in the canonical decimal
form of a parsed level value (minimal `k` with `den ∣ 10^k`). -/
def fracDigitsCount (den : Nat) : Nat :=
  (((List.range 40).find? (fun k => 10 ^ k % den == 0)).getD 0)

/-- `str(x)` for a parsed float level value (idealized as the canonical
shortest decimal form, which agrees with CPython on index-file levels). -/
def decimalStr (q : Rat) : String :=
  let k := fracDigitsCount q.den
  let scaled := q.num * 10 ^ k / (q.den : Int)
  if k == 0 then toString scaled ++ ".0"
  else toString (scaled / 10 ^ k) ++ "." ++ padZero k (toString (scaled % 10 ^ k).toNat)

/-- Python `f"{level:04}"`. -/
def formatLevel (n : PyNum) : String :=
  padZero 4 (if n.isFloat then decimalStr n.val else toString n.val.num)

def joinDash : List String → String
  | [] => ""
  | [s] => s
  | s :: rest => s ++ "-" ++ joinDash rest

/-- `Var.__str__`: dash-joined name, level type and zero-padded level,
with falsy (empty/absent) components dropped by `filter(None, ...)`. -/
def strOfVar (v : Var) : String :=
  joinDash
    ((v.name :: v.level_type ::
        (match v.level with | some n => [formatLevel n] | none => [])).filter
      (fun s => !s.data.isEmpty))

/-- Python `int(s)` on a field of the index file: optional sign and
surrounding whitespace around a digit string. -/
def parseInt (s : String) : Option Int :=
  let t := (s.data.dropWhile Char.isWhitespace).reverse.dropWhile Char.isWhitespace |>.reverse
  match t with
  | '-' :: d =>
      if !d.isEmpty && d.all Char.isDigit then some (-(digitsToNat d : Int)) else none
  | '+' :: d =>
      if !d.isEmpty && d.all Char.isDigit then some ((digitsToNat d : Int)) else none
  | d =>
      if !d.isEmpty && d.all Char.isDigit then some ((digitsToNat d : Int)) else none

/-! The loop of `workflow._grib_index_data`:

    lines = idxfile.ref.read_text(encoding="utf-8").strip().split("\n")
    lines.append(":-1:::::")  # end marker
    vxvars = set(_vxvars(c).keys())
    for this_record, next_record in pairwise([line.split(":") for line in lines]):
        baseline_var = baseline_class(
            name=this_record[3], levstr=this_record[4],
            firstbyte=int(this_record[1]), lastbyte=int(next_record[1]) - 1)
        if baseline_var in vxvars:
            idxdata[str(baseline_var)] = baseline_var

The dict `idxdata` is embedded by its content, a partial map from
string keys to variables; `none` for the whole computation embeds a
raised IndexError/ValueError on a malformed record. -/
abbrev PyDict := String → Option GFSVar

def emptyDict : PyDict := fun _ => none

def dictInsert (m : PyDict) (k : String) (v : GFSVar) : PyDict :=
  fun q => if q == k then some v else m q

/-- `itertools.pairwise`. -/
def pairwiseList : List α → List (α × α)
  | a :: b :: rest => (a, b) :: pairwiseList (b :: rest)
  | _ => []

def sentinelRecord : List String := pySplit ':' ":-1:::::"

def parseIndexRecords (text : String) : List (List String) :=
  (pySplit '\n' (pyStrip text)).map (fun line => pySplit ':' line)

/-- The loop body's constructor call for one adjacent record pair. -/
def recordPairVar (tr nr : List String) : Option GFSVar :=
  match (tr[1]?).bind parseInt, (nr[1]?).bind parseInt, tr[3]?, tr[4]? with
  | some off, some noff, some name, some levstr => some (mkGFS name levstr off (noff - 1))
  | _, _, _, _ => none

def inVxvars (vxvars : List Var) (v : GFSVar) : Bool :=
  vxvars.any (fun w => varEq w v.toVar)

def gribIndexLoop (vxvars : List Var) (acc : PyDict) :
    List (List String × List String) → Option PyDict
  | [] => some acc
  | pr :: rest =>
      match recordPairVar pr.1 pr.2 with
      | none => none
      | some v =>
          gribIndexLoop vxvars
            (if inVxvars vxvars v then dictInsert acc (strOfVar v.toVar) v else acc) rest

def gribIndexData (vxvars : List Var) (text : String) : Option PyDict :=
  gribIndexLoop vxvars emptyDict (pairwiseList (parseIndexRecords text ++ [sentinelRecord]))

/-! ## metconf.py — MET configuration rendering

A config value is a Python scalar (embedded as its string form), a
list, or a nested string-keyed mapping.  `RenderErr.unsupportedKey`
embeds the `ValueError("Unsupported key: ...")` raised by `_fail`;
`RenderErr.typeError` embeds the TypeError/AttributeError Python raises
when a value's shape does not fit its key's handler. -/
inductive ConfVal where
  | str : String → ConfVal
  | list : List ConfVal → ConfVal
  | map : List (String × ConfVal) → ConfVal

inductive RenderErr where
  | unsupportedKey : String → RenderErr
  | typeError : RenderErr
  deriving DecidableEq, Repr

/-- `_indent(v, level)`: `"  " * level + v`. -/
def indentStr (v : String) (level : Nat) : String :=
  String.mk (List.replicate (2 * level) ' ') ++ v

/-- `_kvpair`. -/
def kvpairLines (k v : String) (level : Nat) : List String :=
  [indentStr (k ++ " = " ++ v ++ ";") level]

/-- `_bare` applied to a scalar. -/
def renderBare (v : ConfVal) : Except RenderErr String :=
  match v with
  | ConfVal.str s => Except.ok s
  | _ => Except.error RenderErr.typeError

/-- `_quoted` applied to a scalar. -/
def renderQuoted (v : ConfVal) : Except RenderErr String :=
  match v with
  | ConfVal.str s => Except.ok ("\"" ++ s ++ "\"")
  | _ => Except.error RenderErr.typeError

def eMapList (f : α → Except RenderErr β) : List α → Except RenderErr (List β)
  | [] => Except.ok []
  | a :: l =>
      match f a, eMapList f l with
      | Except.ok b, Except.ok bs => Except.ok (b :: bs)
      | Except.error e, _ => Except.error e
      | _, Except.error e => Except.error e

def appendToLast (suffix : String) : List String → List String
  | [] => []
  | [s] => [s ++ suffix]
  | s :: rest => s :: appendToLast suffix rest

/-- `",\n".join(chunks).split("\n")` where each chunk is a rendered
(list-of-lines) item: all lines of every chunk, a comma appended to the
last line of each chunk but the final one. -/
def joinComma : List (List String) → List String
  | [] => [""]
  | [c] => c
  | c :: rest => appendToLast "," c ++ joinComma rest

/-- `_sequence(k, v, handler, level)`. -/
def renderSeq (k : String) (f : ConfVal → Except RenderErr String) (v : ConfVal)
    (level : Nat) : Except RenderErr (List String) :=
  match v with
  | ConfVal.list [] => Except.ok [indentStr (k ++ " = [];") level]
  | ConfVal.list vs =>
      match eMapList f vs with
      | Except.ok items =>
          Except.ok ([indentStr (k ++ " = [") level] ++
            joinComma (items.map (fun s => [indentStr s (level + 1)])) ++
            [indentStr "];" level])
      | Except.error e => Except.error e
  | _ => Except.error RenderErr.typeError

/-- `sorted(d.items())` (insertion sort on the keys). -/
def insertSorted (p : String × ConfVal) : List (String × ConfVal) → List (String × ConfVal)
  | [] => [p]
  | q :: rest => if p.1 ≤ q.1 then p :: q :: rest else q :: insertSorted p rest

def sortByKey (d : List (String × ConfVal)) : List (String × ConfVal) :=
  d.foldr insertSorted []

/-- The loop of `_collect`, over an already-sorted item list. -/
def collectGo (f : String → ConfVal → Nat → Except RenderErr (List String)) :
    List (String × ConfVal) → Nat → Except RenderErr (List String)
  | [], _ => Except.ok []
  | p :: rest, level =>
      match f p.1 p.2 level, collectGo f rest level with
      | Except.ok lines, Except.ok more => Except.ok (lines ++ more)
      | Except.error e, _ => Except.error e
      | _, Except.error e => Except.error e

/-- `_collect(f, d, level)`. -/
def collect (f : String → ConfVal → Nat → Except RenderErr (List String))
    (d : List (String × ConfVal)) (level : Nat) : Except RenderErr (List String) :=
  collectGo f (sortByKey d) level

/-- `_mapping(k, v, level)`. -/
def mappingLines (k : String) (v : List String) (level : Nat) : List String :=
  [indentStr (k ++ " = \x7b") level] ++ v ++ [indentStr "\x7d" level]

/-- `_field_mapping_kvpairs`. -/
def fieldMappingKV (k : String) (v : ConfVal) (level : Nat) : Except RenderErr (List String) :=
  if k == "cat_thresh" then renderSeq k renderBare v level
  else if k == "cnt_thresh" then renderSeq k renderBare v level
  else if k == "level" then renderSeq k renderQuoted v level
  else if k == "name" then
    match renderQuoted v with
    | Except.ok s => Except.ok (kvpairLines k s level)
    | Except.error e => Except.error e
  else if k == "set_attr_level" then
    match renderQuoted v with
    | Except.ok s => Except.ok (kvpairLines k s level)
    | Except.error e => Except.error e
  else Except.error (RenderErr.unsupportedKey k)

/-- `_field_mapping(d, level)` (kept as its list of lines). -/
def fieldMapping (d : List (String × ConfVal)) (level : Nat) : Except RenderErr (List String) :=
  match collect fieldMappingKV d (level + 1) with
  | Except.ok inner => Except.ok ([indentStr "\x7b" level] ++ inner ++ [indentStr "\x7d" level])
  | Except.error e => Except.error e

/-- One element of the `_field_sequence` comprehension: the element must
be a dict, rendered by `_field_mapping` at the given level. -/
def fieldItem (level : Nat) : ConfVal → Except RenderErr (List String)
  | ConfVal.map dm => fieldMapping dm level
  | _ => Except.error RenderErr.typeError

/-- `_field_sequence(k, v, level)`. -/
def fieldSequence (k : String) (v : ConfVal) (level : Nat) : Except RenderErr (List String) :=
  match v with
  | ConfVal.list ds =>
      match eMapList (fieldItem (level + 1)) ds with
      | Except.ok chunks =>
          Except.ok ([indentStr (k ++ " = [") level] ++ joinComma chunks ++
            [indentStr "];" level])
      | Except.error e => Except.error e
  | _ => Except.error RenderErr.typeError

/-- `_fcst_or_obs`. -/
def fcstOrObsKV (k : String) (v : ConfVal) (level : Nat) : Except RenderErr (List String) :=
  if k == "field" then fieldSequence k v level
  else Except.error (RenderErr.unsupportedKey k)

/-- `_mask`. -/
def maskKV (k : String) (v : ConfVal) (level : Nat) : Except RenderErr (List String) :=
  if k == "grid" || k == "poly" then renderSeq k renderQuoted v level
  else Except.error (RenderErr.unsupportedKey k)

/-- `_nbrhd`. -/
def nbrhdKV (k : String) (v : ConfVal) (level : Nat) : Except RenderErr (List String) :=
  if k == "shape" then
    match renderBare v with
    | Except.ok s => Except.ok (kvpairLines k s level)
    | Except.error e => Except.error e
  else if k == "width" then renderSeq k renderBare v level
  else Except.error (RenderErr.unsupportedKey k)

/-- `_output_flag`. -/
def outputFlagKV (k : String) (v : ConfVal) (level : Nat) : Except RenderErr (List String) :=
  if k == "cnt" || k == "cts" || k == "nbrcnt" then
    match renderBare v with
    | Except.ok s => Except.ok (kvpairLines k s level)
    | Except.error e => Except.error e
  else Except.error (RenderErr.unsupportedKey k)

/-- `_regrid`. -/
def regridKV (k : String) (v : ConfVal) (level : Nat) : Except RenderErr (List String) :=
  if k == "method" || k == "to_grid" then
    match renderBare v with
    | Except.ok s => Except.ok (kvpairLines k s level)
    | Except.error e => Except.error e
  else Except.error (RenderErr.unsupportedKey k)

/-- Render `k`'s value as a nested mapping via handler `f`
(the `_mapping(k, _collect(f, v, level + 1), level)` pattern of `_top`). -/
def subMap (f : String → ConfVal → Nat → Except RenderErr (List String)) (k : String)
    (v : ConfVal) (level : Nat) : Except RenderErr (List String) :=
  match v with
  | ConfVal.map dm =>
      match collect f dm (level + 1) with
      | Except.ok inner => Except.ok (mappingLines k inner level)
      | Except.error e => Except.error e
  | _ => Except.error RenderErr.typeError

/-- `_top`. -/
def topKV (k : String) (v : ConfVal) (level : Nat) : Except RenderErr (List String) :=
  if k == "fcst" || k == "obs" then subMap fcstOrObsKV k v level
  else if k == "model" || k == "obtype" || k == "output_prefix" || k == "tmp_dir" then
    match renderQuoted v with
    | Except.ok s => Except.ok (kvpairLines k s level)
    | Except.error e => Except.error e
  else if k == "mask" then subMap maskKV k v level
  else if k == "nbrhd" then subMap nbrhdKV k v level
  else if k == "nc_pairs_flag" then
    match renderBare v with
    | Except.ok s => Except.ok (kvpairLines k s level)
    | Except.error e => Except.error e
  else if k == "output_flag" then subMap outputFlagKV k v level
  else if k == "regrid" then subMap regridKV k v level
  else Except.error (RenderErr.unsupportedKey k)

def joinLines : List String → String
  | [] => ""
  | [s] => s
  | s :: rest => s ++ "\n" ++ joinLines rest

/-- `render(config)`: `"\n".join(_collect(_top, config, 0))`. -/
def render (config : List (String × ConfVal)) : Except RenderErr String :=
  match collect topKV config 0 with
  | Except.ok lines => Except.ok (joinLines lines)
  | Except.error e => Except.error e

/-! Shape well-formedness (the value of each *recognized* key fits the
shape its handler destructures; unrecognized keys carry no constraint,
since `_fail` fires before the value is inspected) and full key
recognition, per nesting level. -/
def isScalar : ConfVal → Bool
  | ConfVal.str _ => true
  | _ => false

def isScalarList : ConfVal → Bool
  | ConfVal.list vs => vs.all isScalar
  | _ => false

def fieldEntryRec (k : String) : Bool :=
  k == "cat_thresh" || k == "cnt_thresh" || k == "level" || k == "name" ||
    k == "set_attr_level"

def fieldEntryWF (k : String) (v : ConfVal) : Bool :=
  if k == "cat_thresh" || k == "cnt_thresh" || k == "level" then isScalarList v
  else if k == "name" || k == "set_attr_level" then isScalar v
  else true

def fieldMapWF : ConfVal → Bool
  | ConfVal.map dm => dm.all (fun p => fieldEntryWF p.1 p.2)
  | _ => false

def isFieldMapList : ConfVal → Bool
  | ConfVal.list ds => ds.all fieldMapWF
  | _ => false

def fieldMapRec : ConfVal → Bool
  | ConfVal.map dm => dm.all (fun p => fieldEntryRec p.1)
  | _ => true

def fieldListRec : ConfVal → Bool
  | ConfVal.list ds => ds.all fieldMapRec
  | _ => true

def fcstObsEntryRec (k : String) (v : ConfVal) : Bool :=
  k == "field" && fieldListRec v

def fcstObsEntryWF (k : String) (v : ConfVal) : Bool :=
  if k == "field" then isFieldMapList v else true

def maskEntryRec (k : String) : Bool :=
  k == "grid" || k == "poly"

def maskEntryWF (k : String) (v : ConfVal) : Bool :=
  if k == "grid" || k == "poly" then isScalarList v else true

def nbrhdEntryRec (k : String) : Bool :=
  k == "shape" || k == "width"

def nbrhdEntryWF (k : String) (v : ConfVal) : Bool :=
  if k == "shape" then isScalar v
  else if k == "width" then isScalarList v
  else true

def outputFlagEntryRec (k : String) : Bool :=
  k == "cnt" || k == "cts" || k == "nbrcnt"

def outputFlagEntryWF (k : String) (v : ConfVal) : Bool :=
  if k == "cnt" || k == "cts" || k == "nbrcnt" then isScalar v else true

def regridEntryRec (k : String) : Bool :=
  k == "method" || k == "to_grid"

def regridEntryWF (k : String) (v : ConfVal) : Bool :=
  if k == "method" || k == "to_grid" then isScalar v else true

def isMapAll (entryPred : String → ConfVal → Bool) : ConfVal → Bool
  | ConfVal.map dm => dm.all (fun p => entryPred p.1 p.2)
  | _ => false

def mapEntriesRec (entryRec : String → ConfVal → Bool) : ConfVal → Bool
  | ConfVal.map dm => dm.all (fun p => entryRec p.1 p.2)
  | _ => true

def topEntryRec (k : String) (v : ConfVal) : Bool :=
  if k == "fcst" || k == "obs" then mapEntriesRec fcstObsEntryRec v
  else if k == "model" || k == "obtype" || k == "output_prefix" || k == "tmp_dir" then true
  else if k == "mask" then mapEntriesRec (fun q _ => maskEntryRec q) v
  else if k == "nbrhd" then mapEntriesRec (fun q _ => nbrhdEntryRec q) v
  else if k == "nc_pairs_flag" then true
  else if k == "output_flag" then mapEntriesRec (fun q _ => outputFlagEntryRec q) v
  else if k == "regrid" then mapEntriesRec (fun q _ => regridEntryRec q) v
  else false

def topEntryWF (k : String) (v : ConfVal) : Bool :=
  if k == "fcst" || k == "obs" then isMapAll fcstObsEntryWF v
  else if k == "model" || k == "obtype" || k == "output_prefix" || k == "tmp_dir" then isScalar v
  else if k == "mask" then isMapAll maskEntryWF v
  else if k == "nbrhd" then isMapAll nbrhdEntryWF v
  else if k == "nc_pairs_flag" then isScalar v
  else if k == "output_flag" then isMapAll outputFlagEntryWF v
  else if k == "regrid" then isMapAll regridEntryWF v
  else true

def configWF (config : List (String × ConfVal)) : Bool :=
  config.all (fun p => topEntryWF p.1 p.2)

def configRecognized (config : List (String × ConfVal)) : Bool :=
  config.all (fun p => topEntryRec p.1 p.2)

/-! Helper decomposition used by the specification theorem for
`_grib_index_data`: the loop equals deriving one variable per adjacent
record pair, then folding the set-membership filter and dict insertion
over the derived list. -/
def offsetOf (r : List String) : Option Int :=
  (r[1]?).bind parseInt

def offAt (records : List (List String)) (i : Nat) : Option Int :=
  (records[i]?).bind offsetOf

def optionMapList (f : α → Option β) : List α → Option (List β)
  | [] => some []
  | a :: l =>
      match f a, optionMapList f l with
      | some b, some bs => some (b :: bs)
      | _, _ => none

def deriveVars (records : List (List String)) : Option (List GFSVar) :=
  optionMapList (fun pr => recordPairVar pr.1 pr.2)
    (pairwiseList (records ++ [sentinelRecord]))

def foldStep (vxvars : List Var) (acc : PyDict) (v : GFSVar) : PyDict :=
  if inVxvars vxvars v then dictInsert acc (strOfVar v.toVar) v else acc

/-- Index-file example from the specification: three records at offsets
0, 100 and 250, two of which are variables of interest. -/
def exampleVxvars : List Var :=
  [⟨"gh", "isobaricInhPa", some ⟨900, false⟩⟩, ⟨"t", "isobaricInhPa", some ⟨900, false⟩⟩]

def exampleIndexText : String :=
  "1:0:d:HGT:900 mb:x\n2:100:d:TMP:900 mb:x\n3:250:d:FOO:900 mb:x"

def exampleRecords : List (List String) :=
  [["1", "0", "d", "HGT", "900 mb", "x"],
   ["2", "100", "d", "TMP", "900 mb", "x"],
   ["3", "250", "d", "FOO", "900 mb", "x"]]

def exampleVars : List GFSVar :=
  [mkGFS "HGT" "900 mb" 0 99, mkGFS "TMP" "900 mb" 100 249, mkGFS "FOO" "900 mb" 250 (-2)]

/-- The configuration of the repository's own `test_metconf_render`
test, as a `ConfVal` mapping. -/
def exampleConfig : List (String × ConfVal) :=
  [("fcst", ConfVal.map [("field", ConfVal.list [ConfVal.map
      [("cat_thresh", ConfVal.list [ConfVal.str ">0"]),
       ("level", ConfVal.list [ConfVal.str "(0,0,*,*)"]),
       ("name", ConfVal.str "T2M")]])]),
   ("mask", ConfVal.map [("poly", ConfVal.list [ConfVal.str "a.nc"])]),
   ("model", ConfVal.str "GraphHRRR"),
   ("nc_pairs_flag", ConfVal.str "FALSE"),
   ("obs", ConfVal.map [("field", ConfVal.list [ConfVal.map
      [("cat_thresh", ConfVal.list [ConfVal.str ">0"]),
       ("level", ConfVal.list [ConfVal.str "Z2"]),
       ("name", ConfVal.str "TMP")]])]),
   ("obtype", ConfVal.str "HRRR"),
   ("output_flag", ConfVal.map [("cnt", ConfVal.str "BOTH")]),
   ("output_prefix", ConfVal.str "foo_bar"),
   ("regrid", ConfVal.map [("to_grid", ConfVal.str "FCST")]),
   ("tmp_dir", ConfVal.str "/path/to/dir")]

def exampleBadConfig : List (String × ConfVal) :=
  [("foo", ConfVal.str "bar")]

theorem loopSeq_pos (step stop : Int) (hstep : 0 < step) (x : Int) (h : x < stop) :
    loopSeq step stop hstep x = x :: loopSeq step stop hstep (x + step) := by
  conv_lhs => rw [loopSeq]
  rw [dif_pos h]

theorem loopSeq_neg (step stop : Int) (hstep : 0 < step) (x : Int) (h : ¬x < stop) :
    loopSeq step stop hstep x = [x] := by
  conv_lhs => rw [loopSeq]
  rw [dif_neg h]

theorem loopSeq_ne_nil (step stop : Int) (hstep : 0 < step) (x : Int) :
    loopSeq step stop hstep x ≠ [] := by
  by_cases h : x < stop
  · rw [loopSeq_pos step stop hstep x h]; simp
  · rw [loopSeq_neg step stop hstep x h]; simp

theorem loopSeq_head (step stop : Int) (hstep : 0 < step) (x : Int) :
    (loopSeq step stop hstep x).head? = some x := by
  by_cases h : x < stop
  · rw [loopSeq_pos step stop hstep x h]; simp
  · rw [loopSeq_neg step stop hstep x h]; simp

theorem loopSeq_chain (step stop : Int) (hstep : 0 < step) (x : Int) :
    List.Chain' (fun a b => b = a + step) (loopSeq step stop hstep x) := by
  have H : ∀ (n : Nat) (x : Int), (stop - x).toNat = n →
      List.Chain' (fun a b => b = a + step) (loopSeq step stop hstep x) := by
    intro n
    induction n using Nat.strong_induction_on with
    | _ n ih =>
      intro x hn
      by_cases h : x < stop
      · rw [loopSeq_pos step stop hstep x h]
        have hrec := ih (stop - (x + step)).toNat (by omega) (x + step) rfl
        refine List.Chain'.cons' hrec ?_
        intro y hy
        have hh := loopSeq_head step stop hstep (x + step)
        rw [hh] at hy
        simp only [Option.mem_def, Option.some.injEq] at hy
        omega
      · rw [loopSeq_neg step stop hstep x h]
        exact List.chain'_singleton x
  exact H _ x rfl

theorem loopSeq_last (step stop : Int) (hstep : 0 < step) (x : Int) :
    ∃ m, (loopSeq step stop hstep x).getLast? = some m ∧ stop ≤ m := by
  have H : ∀ (n : Nat) (x : Int), (stop - x).toNat = n →
      ∃ m, (loopSeq step stop hstep x).getLast? = some m ∧ stop ≤ m := by
    intro n
    induction n using Nat.strong_induction_on with
    | _ n ih =>
      intro x hn
      by_cases h : x < stop
      · rw [loopSeq_pos step stop hstep x h]
        obtain ⟨m, hm', hms⟩ := ih (stop - (x + step)).toNat (by omega) (x + step) rfl
        refine ⟨m, ?_, hms⟩
        have hne := loopSeq_ne_nil step stop hstep (x + step)
        obtain ⟨b, l', hbl⟩ := List.exists_cons_of_ne_nil hne
        rw [hbl] at hm' ⊢
        rw [List.getLast?_cons_cons]
        exact hm'
      · rw [loopSeq_neg step stop hstep x h]
        exact ⟨x, by simp, by omega⟩
  exact H _ x rfl

theorem loopSeq_dropLast (step stop : Int) (hstep : 0 < step) (x : Int) :
    ∀ y ∈ (loopSeq step stop hstep x).dropLast, y < stop := by
  have H : ∀ (n : Nat) (x : Int), (stop - x).toNat = n →
      ∀ y ∈ (loopSeq step stop hstep x).dropLast, y < stop := by
    intro n
    induction n using Nat.strong_induction_on with
    | _ n ih =>
      intro x hn
      by_cases h : x < stop
      · rw [loopSeq_pos step stop hstep x h]
        have hrec := ih (stop - (x + step)).toNat (by omega) (x + step) rfl
        have hne := loopSeq_ne_nil step stop hstep (x + step)
        intro y hy
        rw [List.dropLast_cons_of_ne_nil hne] at hy
        rcases List.mem_cons.mp hy with hcase | hcase
        · omega
        · exact hrec y hcase
      · rw [loopSeq_neg step stop hstep x h]
        intro y hy
        simp at hy
  exact H _ x rfl

/-- The loop of `expand`, run with enough fuel starting from a list
ending in `x`, finishes and appends exactly `loopSeq step stop _ x`
past the elements already accumulated. -/
theorem expandGo_eq_loopSeq (step stop : Int) (hstep : 0 < step) :
    ∀ (fuel : Nat) (x : Int) (acc : List Int), (stop - x).toNat < fuel →
      expandGo step stop fuel (acc ++ [x]) = some (acc ++ loopSeq step stop hstep x) := by
  intro fuel
  induction fuel with
  | zero => intro x acc h; omega
  | succ fuel ih =>
    intro x acc h
    rw [expandGo, List.getLast?_concat]
    simp only
    split
    · rename_i hlt
      have hassoc : acc ++ [x] ++ [x + step] = (acc ++ [x]) ++ [x + step] := by simp
      rw [hassoc, ih (x + step) (acc ++ [x]) (by omega)]
      rw [loopSeq_pos step stop hstep x hlt]
      simp
    · rename_i hge
      rw [loopSeq_neg step stop hstep x hge]

theorem expandGo_none_of_nonpos (step stop : Int) (hstep : step ≤ 0) :
    ∀ (fuel : Nat) (x : Int) (acc : List Int), x < stop →
      expandGo step stop fuel (acc ++ [x]) = none := by
  intro fuel
  induction fuel with
  | zero => intro x acc _; rfl
  | succ fuel ih =>
    intro x acc h
    rw [expandGo, List.getLast?_concat]
    simp only
    rw [if_pos h]
    have hassoc : acc ++ [x] ++ [x + step] = (acc ++ [x]) ++ [x + step] := by simp
    rw [hassoc]
    exact ih (x + step) (acc ++ [x]) (by omega)

theorem proxyRun_length (stored : Option Bool) (fss : List Bool) :
    (proxyRun stored fss).length = fss.length := by
  induction fss generalizing stored with
  | nil => rfl
  | cons fs rest ih => simp only [proxyRun, List.length_cons]; rw [ih]

theorem proxyRun_some_true (fss : List Bool) :
    proxyRun (some true) fss = List.replicate fss.length true := by
  induction fss with
  | nil => rfl
  | cons fs rest ih => simp only [proxyRun, proxyStep, List.replicate, List.length_cons]; rw [ih]

theorem proxyStep_true_state (stored : Option Bool) (fs : Bool)
    (h : (proxyStep stored fs).1 = true) : (proxyStep stored fs).2 = some true := by
  cases stored with
  | none => simp [proxyStep] at h
  | some b =>
      cases b with
      | true => rfl
      | false =>
          cases fs with
          | true => rfl
          | false => simp [proxyStep] at h

theorem proxyRun_monotone (stored : Option Bool) (fss : List Bool) (i j : Nat)
    (hij : i ≤ j) (hj : j < fss.length)
    (hi : (proxyRun stored fss)[i]? = some true) :
    (proxyRun stored fss)[j]? = some true := by
  induction fss generalizing stored i j with
  | nil => simp at hj
  | cons fs rest ih =>
    simp only [proxyRun] at hi ⊢
    cases i with
    | zero =>
        simp only [List.getElem?_cons_zero, Option.some.injEq] at hi
        have hst : (proxyStep stored fs).2 = some true := by
          apply proxyStep_true_state
          rw [hi]
        cases j with
        | zero => simp [hi]
        | succ j' =>
            simp only [List.getElem?_cons_succ]
            rw [hst, proxyRun_some_true]
            have hj' : j' < rest.length := by simpa using hj
            simp [List.getElem?_replicate, hj']
    | succ i' =>
        cases j with
        | zero => omega
        | succ j' =>
            simp only [List.getElem?_cons_succ] at hi ⊢
            exact ih _ i' j' (by omega) (by simpa using hj) hi

/-- C1: the readiness predicate built by `workflow.proxy` re-probes the
filesystem while the remembered value is `false`, returning exactly the
file's existence and durably upgrading the remembered value on success;
it never probes again after remembering `true`, and once any call has
returned `true`, every subsequent call returns `true`. -/
theorem proxy_cache_invariant :
    (∀ fs : Bool, proxyStep (some false) fs = (fs, some fs)) ∧
    (∀ fs : Bool, proxyStep (some true) fs = (true, some true)) ∧
    (∀ (stored : Option Bool) (fss : List Bool) (i j : Nat), i ≤ j → j < fss.length →
      (proxyRun stored fss)[i]? = some true → (proxyRun stored fss)[j]? = some true) := by
  refine ⟨?_, ?_, ?_⟩
  · intro fs; cases fs <;> rfl
  · intro fs; rfl
  · intro stored fss i j hij hj hi
    exact proxyRun_monotone stored fss i j hij hj hi

/-- Witness for C1: a file absent on the first probe and present from the
second probe on; the third call returns true although the file was
deleted before it (existence list `[false, true, false]`). -/
theorem proxy_cache_invariant_witness :
    proxyStep (some false) true = (true, some true) ∧
    (proxyRun (some false) [false, true, false])[2]? = some true :=
  ⟨proxy_cache_invariant.1 true,
   proxy_cache_invariant.2.2 (some false) [false, true, false] 1 2 (by decide) (by decide)
     (by decide)⟩

/-- Counterexample to C2: with no value yet remembered, the very first
call of the `proxy` closure returns `false` and records `false` without
probing the filesystem, even though the file exists (`fsExists = true`);
the claim says this first call returns `true`. -/
theorem proxy_first_call_counterexample :
    proxyStep none true = (false, some false) ∧ (proxyStep none true).1 ≠ true ∧
    proxyRun none [true] = [false] := by
  decide

/-- C2 amended: for a path with no value yet remembered, the first call
returns `false` and stores `false` without consulting the filesystem;
the filesystem is first probed on the second call, which returns the
file's actual existence at that point. -/
theorem proxy_first_call_amended :
    (∀ fs : Bool, proxyStep none fs = (false, some false)) ∧
    (∀ (fs1 fs2 : Bool) (rest : List Bool),
      proxyRun none (fs1 :: fs2 :: rest) = false :: fs2 :: proxyRun (some fs2) rest) := by
  constructor
  · intro fs; rfl
  · intro fs1 fs2 rest
    cases fs2 <;> rfl

/-- C6: under a positive step and `start ≤ stop`, `expand` returns a
non-empty sorted-ascending list starting at `start`, with consecutive
elements differing by exactly `step`, whose last element is the first
value of the form `start + k*step` at or past `stop`; degenerately,
`expand start step start = [start]`. -/
theorem expand_arithmetic_sequence (start step stop : Int)
    (hstep : 0 < step) (hle : start ≤ stop) :
    (∃ fuel L, expand start step stop fuel = some (Except.ok L) ∧
      L ≠ [] ∧ L.head? = some start ∧
      List.Chain' (fun a b => b = a + step) L ∧
      List.Sorted (· < ·) L ∧
      (∀ y ∈ L.dropLast, y < stop) ∧
      (∃ m, L.getLast? = some m ∧ stop ≤ m)) ∧
    expand start step start 1 = some (Except.ok [start]) := by
  constructor
  · refine ⟨(stop - start).toNat + 1, loopSeq step stop hstep start, ?_, ?_, ?_, ?_, ?_, ?_, ?_⟩
    · rw [expand, if_neg (by omega)]
      have h0 : ([start] : List Int) = [] ++ [start] := by simp
      rw [h0, expandGo_eq_loopSeq step stop hstep _ start [] (by omega)]
      simp
    · exact loopSeq_ne_nil step stop hstep start
    · exact loopSeq_head step stop hstep start
    · exact loopSeq_chain step stop hstep start
    · have hc := loopSeq_chain step stop hstep start
      have hc' : List.Chain' (· < ·) (loopSeq step stop hstep start) := by
        refine List.Chain'.imp ?_ hc
        intro a b hab
        omega
      exact List.chain'_iff_pairwise.mp hc'
    · exact loopSeq_dropLast step stop hstep start
    · exact loopSeq_last step stop hstep start
  · rw [expand, if_neg (by omega), expandGo, List.getLast?]
    simp

/-- Witness for C6 at `start = 0`, `step = 2`, `stop = 3`. -/
theorem expand_arithmetic_sequence_witness :
    (∃ fuel L, expand 0 2 3 fuel = some (Except.ok L) ∧
      L ≠ [] ∧ L.head? = some 0 ∧
      List.Chain' (fun a b => b = a + 2) L ∧
      List.Sorted (· < ·) L ∧
      (∀ y ∈ L.dropLast, y < 3) ∧
      (∃ m, L.getLast? = some m ∧ 3 ≤ m)) ∧
    expand 0 2 0 1 = some (Except.ok [0]) :=
  expand_arithmetic_sequence 0 2 3 (by decide) (by decide)

/-- C7: `expand` raises `WXVXError` iff `stop < start`, and the check
happens before the loop runs (even with zero fuel, and no sequence is
produced). -/
theorem expand_raises_iff (start step stop : Int) :
    (∀ fuel, (∃ e, expand start step stop fuel = some (Except.error e)) ↔ stop < start) ∧
    (stop < start → expand start step stop 0 =
      some (Except.error (PyError.wxvxError "Stop time precedes start time"))) := by
  constructor
  · intro fuel
    constructor
    · rintro ⟨e, he⟩
      by_contra hns
      rw [expand, if_neg hns] at he
      cases hgo : expandGo step stop fuel [start] with
      | none => rw [hgo] at he; simp at he
      | some l => rw [hgo] at he; simp at he
    · intro h
      exact ⟨PyError.wxvxError "Stop time precedes start time", by rw [expand, if_pos h]⟩
  · intro h
    rw [expand, if_pos h]

/-- Witness for C7 at `start = 5`, `stop = 3`. -/
theorem expand_raises_iff_witness :
    expand 5 1 3 0 = some (Except.error (PyError.wxvxError "Stop time precedes start time")) :=
  (expand_raises_iff 5 1 3).2 (by decide)

/-- C10: `expand` terminates whenever `stop ≤ start` or `step` is
strictly positive, and positivity of the step is necessary: with a
non-positive step and `start < stop` the loop never finishes (the
fuel-indexed embedding returns `none` for every fuel). -/
theorem expand_terminates (start step stop : Int) :
    (stop ≤ start ∨ 0 < step → ∃ fuel r, expand start step stop fuel = some r) ∧
    (step ≤ 0 → start < stop → ∀ fuel, expand start step stop fuel = none) := by
  constructor
  · intro h
    by_cases hlt : stop < start
    · exact ⟨0, Except.error (PyError.wxvxError "Stop time precedes start time"),
        by rw [expand, if_pos hlt]⟩
    · rcases h with h1 | h2
      · have heq : stop = start := by omega
        subst heq
        refine ⟨1, Except.ok [stop], ?_⟩
        rw [expand, if_neg (by omega), expandGo, List.getLast?]
        simp
      · refine ⟨(stop - start).toNat + 1, Except.ok (loopSeq step stop h2 start), ?_⟩
        rw [expand, if_neg hlt]
        have h0 : ([start] : List Int) = [] ++ [start] := by simp
        rw [h0, expandGo_eq_loopSeq step stop h2 _ start [] (by omega)]
        simp
  · intro hstep hlt fuel
    rw [expand, if_neg (by omega)]
    have h0 : ([start] : List Int) = [] ++ [start] := by simp
    rw [h0, expandGo_none_of_nonpos step stop hstep fuel start [] hlt]
    rfl

/-- Witness for C10: termination at `(0, 1, 2)`; divergence at step `0`. -/
theorem expand_terminates_witness :
    (∃ fuel r, expand 0 1 2 fuel = some r) ∧ expand 0 0 2 7 = none :=
  ⟨(expand_terminates 0 1 2).1 (Or.inr (by decide)),
   (expand_terminates 0 0 2).2 (by decide) (by decide) 7⟩

/-- Counterexample to C8: two coordinates whose validity times differ by
half a second (cycle epoch microseconds 0 vs 500000, both with zero lead
time) have different `cycle + leadtime` values yet compare equal, because
`__hash__` truncates the validity time to whole seconds; so equality is
not equivalent to `c1 + l1 == c2 + l2`, and `0 < 500000` yet `__lt__` is
false. -/
theorem timecoords_eq_counterexample :
    TimeCoords.validtime ⟨0, 0⟩ ≠ TimeCoords.validtime ⟨500000, 0⟩ ∧
    tcEq ⟨0, 0⟩ ⟨500000, 0⟩ = true ∧
    tcLt ⟨0, 0⟩ ⟨500000, 0⟩ = false := by
  decide

/-- C8 amended: equality, ordering and hashing of `TimeCoords` are
determined solely by the validity time truncated to whole epoch seconds
(`int(validtime.timestamp())`): equal truncations compare equal even
when the cycle/lead-time decompositions differ, and on validity times
that are whole seconds the claimed equivalence with `cycle + leadtime`
holds exactly. -/
theorem timecoords_eq_by_truncated_validtime (a b : TimeCoords) :
    (tcEq a b = true ↔ Int.tdiv a.validtime 1000000 = Int.tdiv b.validtime 1000000) ∧
    (tcLt a b = true ↔ Int.tdiv a.validtime 1000000 < Int.tdiv b.validtime 1000000) ∧
    (a.validtime = b.validtime → tcEq a b = true) ∧
    (a.validtime % 1000000 = 0 → b.validtime % 1000000 = 0 →
      ((tcEq a b = true ↔ a.validtime = b.validtime) ∧
       (tcLt a b = true ↔ a.validtime < b.validtime))) := by
  refine ⟨?_, ?_, ?_, ?_⟩
  · simp [tcEq, TimeCoords.pyHash]
  · simp [tcLt, TimeCoords.pyHash]
  · intro h
    simp [tcEq, TimeCoords.pyHash, h]
  · intro ha hb
    obtain ⟨ka, hka⟩ : ∃ k, a.validtime = 1000000 * k := ⟨a.validtime / 1000000, by omega⟩
    obtain ⟨kb, hkb⟩ : ∃ k, b.validtime = 1000000 * k := ⟨b.validtime / 1000000, by omega⟩
    have hta : Int.tdiv a.validtime 1000000 = ka := by
      rw [hka, Int.mul_tdiv_cancel_left _ (by norm_num)]
    have htb : Int.tdiv b.validtime 1000000 = kb := by
      rw [hkb, Int.mul_tdiv_cancel_left _ (by norm_num)]
    have h1 : tcEq a b = true ↔
        Int.tdiv a.validtime 1000000 = Int.tdiv b.validtime 1000000 := by
      simp [tcEq, TimeCoords.pyHash]
    have h2 : tcLt a b = true ↔
        Int.tdiv a.validtime 1000000 < Int.tdiv b.validtime 1000000 := by
      simp [tcLt, TimeCoords.pyHash]
    constructor
    · rw [h1, hta, htb, hka, hkb]
      omega
    · rw [h2, hta, htb, hka, hkb]
      omega

/-- Witness for C8 (amended) at whole-second validity times: cycle
`2000000` µs with lead `0` equals cycle `0` µs with lead `2000000` µs,
and precedes cycle `3000000` µs. -/
theorem timecoords_eq_by_truncated_validtime_witness :
    tcEq ⟨2000000, 0⟩ ⟨0, 2000000⟩ = true ∧ tcLt ⟨2000000, 0⟩ ⟨3000000, 0⟩ = true :=
  ⟨((timecoords_eq_by_truncated_validtime ⟨2000000, 0⟩ ⟨0, 2000000⟩).2.2.2
      (by decide) (by decide)).1.mpr (by decide),
   ((timecoords_eq_by_truncated_validtime ⟨2000000, 0⟩ ⟨3000000, 0⟩).2.2.2
      (by decide) (by decide)).2.mpr (by decide)⟩

/-- C3: when the request completes with a status code, `fetch` returns
true and writes the body iff the status is 206 when a `Range` header was
supplied and iff the status is 200 when not; on any other status it
returns false and the destination is left unwritten, and the write
happens exactly when `true` is returned. -/
theorem fetch_status_contract (headers : Option (List (String × String))) (code : Nat) :
    (∀ r, fetch headers (ReqOutcome.response code) = Except.ok r → r.returned = r.wrote) ∧
    (hasRangeHeader headers = true →
      (fetch headers (ReqOutcome.response code) = Except.ok ⟨true, true⟩ ↔ code = 206) ∧
      (fetch headers (ReqOutcome.response code) = Except.ok ⟨false, false⟩ ↔ code ≠ 206)) ∧
    (hasRangeHeader headers = false →
      (fetch headers (ReqOutcome.response code) = Except.ok ⟨true, true⟩ ↔ code = 200) ∧
      (fetch headers (ReqOutcome.response code) = Except.ok ⟨false, false⟩ ↔ code ≠ 200)) := by
  refine ⟨?_, ?_, ?_⟩
  · intro r hr
    simp only [fetch] at hr
    split at hr <;> split at hr <;> (injection hr with h; subst h; rfl)
  · intro hR
    by_cases hc : code = 206 <;> simp [fetch, hR, hc]
  · intro hR
    by_cases hc : code = 200 <;> simp [fetch, hR, hc]

/-- Witness for C3: a range request answered 206 succeeds and writes;
answered 200 it fails and writes nothing; a plain request answered 200
succeeds. -/
theorem fetch_status_contract_witness :
    fetch (some [("Range", "bytes=0-99")]) (ReqOutcome.response 206) = Except.ok ⟨true, true⟩ ∧
    fetch (some [("Range", "bytes=0-99")]) (ReqOutcome.response 200) = Except.ok ⟨false, false⟩ ∧
    fetch none (ReqOutcome.response 200) = Except.ok ⟨true, true⟩ :=
  ⟨((fetch_status_contract (some [("Range", "bytes=0-99")]) 206).2.1 (by decide)).1.mpr rfl,
   ((fetch_status_contract (some [("Range", "bytes=0-99")]) 200).2.1 (by decide)).2.mpr
     (by decide),
   ((fetch_status_contract none 200).2.2 (by decide)).1.mpr rfl⟩

/-- Counterexample to C4: a request timeout makes `fetch` propagate the
exception across its boundary (the code has no handler), not return
false; likewise `status` propagates instead of returning a non-200
code. -/
theorem fetch_raises_counterexample :
    fetch none (ReqOutcome.failure NetErr.timeout) = Except.error NetErr.timeout ∧
    fetch none (ReqOutcome.failure NetErr.timeout) ≠ Except.ok ⟨false, false⟩ ∧
    status (ReqOutcome.failure NetErr.timeout) = Except.error NetErr.timeout ∧
    status (ReqOutcome.failure NetErr.timeout) ≠ Except.ok 404 :=
  ⟨rfl, fun h => Except.noConfusion h, rfl, fun h => Except.noConfusion h⟩

/-- C4 amended: `fetch` and `status` return normally only when the HTTP
request completes with a status code; a timeout or connection failure
propagates out of both functions as an exception (neither contains any
exception handling), rather than being converted to `false`/non-200. -/
theorem fetch_raises_amended (headers : Option (List (String × String))) (e : NetErr) :
    fetch headers (ReqOutcome.failure e) = Except.error e ∧
    status (ReqOutcome.failure e) = Except.error e ∧
    (∀ code, ∃ r, fetch headers (ReqOutcome.response code) = Except.ok r) ∧
    (∀ code, status (ReqOutcome.response code) = Except.ok code) := by
  refine ⟨rfl, rfl, ?_, fun _ => rfl⟩
  intro code
  by_cases hc : code = (if hasRangeHeader headers then 206 else 200)
  · exact ⟨⟨true, true⟩, by simp [fetch, hc]⟩
  · exact ⟨⟨false, false⟩, by simp [fetch, beq_iff_eq, hc]⟩

theorem pairwiseList_length : ∀ l : List α, (pairwiseList l).length = l.length - 1
  | [] => rfl
  | [_] => rfl
  | a :: b :: rest => by
      simp only [pairwiseList, List.length_cons, pairwiseList_length (b :: rest)]
      simp

theorem pairwiseList_getElem :
    ∀ (l : List α) (i : Nat) (a b : α), l[i]? = some a → l[i + 1]? = some b →
      (pairwiseList l)[i]? = some (a, b)
  | [], i, a, b, ha, _ => by simp at ha
  | [x], i, a, b, ha, hb => by
      rcases i with _ | j <;> simp at hb
  | x :: y :: rest, 0, a, b, ha, hb => by
      simp only [List.getElem?_cons_zero, Option.some.injEq] at ha
      simp only [List.getElem?_cons_succ, List.getElem?_cons_zero, Option.some.injEq] at hb
      simp [pairwiseList, ha, hb]
  | x :: y :: rest, j + 1, a, b, ha, hb => by
      rw [List.getElem?_cons_succ] at ha hb
      simpa [pairwiseList] using pairwiseList_getElem (y :: rest) j a b ha hb

theorem optionMapList_length (f : α → Option β) :
    ∀ (l : List α) (bs : List β), optionMapList f l = some bs → bs.length = l.length
  | [], bs, h => by
      simp only [optionMapList, Option.some.injEq] at h
      simp [← h]
  | a :: l, bs, h => by
      simp only [optionMapList] at h
      cases ha : f a with
      | none => rw [ha] at h; simp at h
      | some b =>
          rw [ha] at h
          cases hl : optionMapList f l with
          | none => rw [hl] at h; simp at h
          | some bs' =>
              rw [hl] at h
              simp only [Option.some.injEq] at h
              subst h
              simp [optionMapList_length f l bs' hl]

theorem optionMapList_getElem (f : α → Option β) :
    ∀ (l : List α) (bs : List β), optionMapList f l = some bs →
      ∀ (i : Nat) (a : α), l[i]? = some a → ∃ b, bs[i]? = some b ∧ f a = some b
  | [], bs, _, i, a, ha => by simp at ha
  | a' :: l, bs, h, i, a, ha => by
      simp only [optionMapList] at h
      cases hfa : f a' with
      | none => rw [hfa] at h; simp at h
      | some b =>
          rw [hfa] at h
          cases hl : optionMapList f l with
          | none => rw [hl] at h; simp at h
          | some bs' =>
              rw [hl] at h
              simp only [Option.some.injEq] at h
              subst h
              cases i with
              | zero =>
                  simp only [List.getElem?_cons_zero, Option.some.injEq] at ha
                  subst ha
                  exact ⟨b, by simp, hfa⟩
              | succ j =>
                  simp only [List.getElem?_cons_succ] at ha ⊢
                  exact optionMapList_getElem f l bs' hl j a ha

theorem gribIndexLoop_eq (vxvars : List Var) :
    ∀ (prs : List (List String × List String)) (acc : PyDict),
      gribIndexLoop vxvars acc prs =
        (optionMapList (fun pr => recordPairVar pr.1 pr.2) prs).map
          (fun vs => vs.foldl (foldStep vxvars) acc)
  | [], acc => rfl
  | pr :: rest, acc => by
      cases hv : recordPairVar pr.1 pr.2 with
      | none => simp [gribIndexLoop, optionMapList, hv]
      | some v =>
          simp only [gribIndexLoop, optionMapList, hv]
          rw [gribIndexLoop_eq vxvars rest]
          cases hrest : optionMapList (fun pr => recordPairVar pr.1 pr.2) rest with
          | none => rfl
          | some vs => simp [foldStep]

theorem buildMap_lookup (vxvars : List Var) :
    ∀ (vs : List GFSVar) (acc : PyDict) (k : String),
      (vs.foldl (foldStep vxvars) acc) k =
        match (vs.filter
            (fun w => inVxvars vxvars w && (strOfVar w.toVar == k))).getLast? with
        | some w => some w
        | none => acc k
  | [], acc, k => rfl
  | v :: rest, acc, k => by
      simp only [List.foldl_cons]
      rw [buildMap_lookup vxvars rest (foldStep vxvars acc v) k]
      by_cases hP : (inVxvars vxvars v && (strOfVar v.toVar == k)) = true
      · rw [List.filter_cons, if_pos hP]
        cases hrf : List.filter
            (fun w => inVxvars vxvars w && (strOfVar w.toVar == k)) rest with
        | nil =>
            simp only [List.getLast?_singleton]
            have hin : inVxvars vxvars v = true := by
              simp only [Bool.and_eq_true] at hP
              exact hP.1
            have hk : strOfVar v.toVar = k := by
              simp only [Bool.and_eq_true, beq_iff_eq] at hP
              exact hP.2
            simp only [foldStep, hin, if_true, dictInsert, hk, hrf]
            simp
        | cons w0 tl =>
            rw [List.getLast?_cons_cons]
            rfl
      · rw [List.filter_cons, if_neg hP]
        cases hrf : List.filter
            (fun w => inVxvars vxvars w && (strOfVar w.toVar == k)) rest with
        | nil =>
            by_cases hin : inVxvars vxvars v = true
            · have hk : (k == strOfVar v.toVar) = false := by
                rcases Bool.and_eq_false_iff.mp (Bool.not_eq_true _ ▸ hP) with hc | hc
                · exact absurd hc (by simp [hin])
                · simp only [beq_eq_false_iff_ne, ne_eq] at hc ⊢
                  exact fun he => hc he.symm
              simp [foldStep, hin, dictInsert, hk]
            · simp [foldStep, hin]
        | cons w0 tl => rfl

theorem getElem?_mem_of_some {l : List α} {i : Nat} {a : α} (h : l[i]? = some a) : a ∈ l := by
  induction l generalizing i with
  | nil => simp at h
  | cons x xs ih =>
      cases i with
      | zero => simp only [List.getElem?_cons_zero, Option.some.injEq] at h; simp [← h]
      | succ j =>
          simp only [List.getElem?_cons_succ] at h
          exact List.mem_cons_of_mem x (ih h)

/-- C5: for an index text whose lines are colon-delimited records, the
parser appends the sentinel record with offset `-1`, iterates adjacent
record pairs, and builds one provider variable per real record with
`firstbyte = offset_i` and `lastbyte = offset_{i+1} - 1` (the final real
record, paired with the sentinel, getting an unbounded `lastbyte =
none`); the resulting mapping holds exactly the variables whose
canonical identity lies in the caller-supplied set of variables of
interest, keyed by the variable's string form. -/
theorem grib_index_data_spec (vxvars : List Var) (text : String)
    (records : List (List String)) (vars : List GFSVar)
    (hrec : parseIndexRecords text = records)
    (hder : deriveVars records = some vars)
    (hpos : ∀ i : Nat, i + 1 < records.length →
      ∃ off, offAt records (i + 1) = some off ∧ 1 ≤ off)
    (hdist : ∀ v ∈ vars, ∀ w ∈ vars, inVxvars vxvars v = true → inVxvars vxvars w = true →
      strOfVar v.toVar = strOfVar w.toVar → v = w) :
    ∃ m, gribIndexData vxvars text = some m ∧
      vars.length = records.length ∧
      (∀ i : Nat, i < records.length →
        ∃ r v off, records[i]? = some r ∧ vars[i]? = some v ∧
          offsetOf r = some off ∧
          (∃ name levstr noff, r[3]? = some name ∧ r[4]? = some levstr ∧
            v = mkGFS name levstr off (noff - 1)) ∧
          v.firstbyte = off ∧
          (i + 1 < records.length →
            ∃ noff, offAt records (i + 1) = some noff ∧ v.lastbyte = some (noff - 1)) ∧
          (i + 1 = records.length → v.lastbyte = none)) ∧
      (∀ v ∈ vars, inVxvars vxvars v = true → m (strOfVar v.toVar) = some v) ∧
      (∀ k v, m k = some v → v ∈ vars ∧ inVxvars vxvars v = true ∧
        strOfVar v.toVar = k) := by
  unfold deriveVars at hder
  have hloop : gribIndexData vxvars text = some (vars.foldl (foldStep vxvars) emptyDict) := by
    unfold gribIndexData
    rw [hrec, gribIndexLoop_eq, hder]
    rfl
  have hlen : vars.length = records.length := by
    have h1 := optionMapList_length _ _ _ hder
    rw [pairwiseList_length] at h1
    simp only [List.length_append, List.length_cons, List.length_nil] at h1
    omega
  refine ⟨vars.foldl (foldStep vxvars) emptyDict, hloop, hlen, ?_, ?_, ?_⟩
  · intro i hi
    have hri : records[i]? = some records[i] := List.getElem?_eq_getElem hi
    have hri' : (records ++ [sentinelRecord])[i]? = some records[i] := by
      rw [List.getElem?_append_left hi, hri]
    by_cases hnext : i + 1 < records.length
    · have hni : records[i + 1]? = some records[i + 1] := List.getElem?_eq_getElem hnext
      have hni' : (records ++ [sentinelRecord])[i + 1]? = some records[i + 1] := by
        rw [List.getElem?_append_left hnext, hni]
      have hpair := pairwiseList_getElem (records ++ [sentinelRecord]) i _ _ hri' hni'
      obtain ⟨v, hvi, hv⟩ := optionMapList_getElem _ _ _ hder i _ hpair
      unfold recordPairVar at hv
      split at hv
      · rename_i off noff name levstr hoff hnoff hname hlevstr
        simp only [Option.some.injEq] at hv
        obtain ⟨off', hoff', h1off⟩ := hpos i hnext
        have hnoff' : offAt records (i + 1) = some noff := by
          unfold offAt
          rw [hni]
          exact hnoff
        have hne : off' = noff := by
          rw [hoff'] at hnoff'
          injection hnoff'
        subst hne
        refine ⟨records[i], v, off, hri, hvi, hoff, ⟨name, levstr, off', hname, hlevstr, hv.symm⟩,
          ?_, ?_, ?_⟩
        · rw [← hv]; rfl
        · intro _
          refine ⟨off', hnoff', ?_⟩
          rw [← hv]
          simp only [mkGFS]
          rw [if_pos (by omega)]
        · intro habs
          omega
      · simp at hv
    · have heq : i + 1 = records.length := by omega
      have hni' : (records ++ [sentinelRecord])[i + 1]? = some sentinelRecord := by
        rw [heq]
        exact List.getElem?_concat_length records sentinelRecord
      have hpair := pairwiseList_getElem (records ++ [sentinelRecord]) i _ _ hri' hni'
      obtain ⟨v, hvi, hv⟩ := optionMapList_getElem _ _ _ hder i _ hpair
      unfold recordPairVar at hv
      split at hv
      · rename_i off noff name levstr hoff hnoff hname hlevstr
        simp only [Option.some.injEq] at hv
        have hsent : (sentinelRecord[1]?).bind parseInt = some (-1) := by rfl
        have hnoffv : noff = -1 := by
          rw [hsent] at hnoff
          injection hnoff with h
          exact h.symm
        subst hnoffv
        refine ⟨records[i], v, off, hri, hvi, hoff, ⟨name, levstr, -1, hname, hlevstr, hv.symm⟩,
          ?_, ?_, ?_⟩
        · rw [← hv]; rfl
        · intro habs
          omega
        · intro _
          rw [← hv]
          simp only [mkGFS]
          rw [if_neg (by omega)]
      · simp at hv
  · intro v hv hin
    rw [buildMap_lookup]
    have hvf : v ∈ vars.filter
        (fun w => inVxvars vxvars w && (strOfVar w.toVar == strOfVar v.toVar)) :=
      List.mem_filter.mpr ⟨hv, by simp [hin]⟩
    cases hlast : (vars.filter
        (fun w => inVxvars vxvars w && (strOfVar w.toVar == strOfVar v.toVar))).getLast? with
    | none =>
        rw [List.getLast?_eq_none_iff] at hlast
        rw [hlast] at hvf
        simp at hvf
    | some w =>
        have hwf := List.mem_filter.mp (List.mem_of_getLast?_eq_some hlast)
        have hwp := hwf.2
        rw [Bool.and_eq_true] at hwp
        have hweq : w = v := by
          apply hdist w hwf.1 v hv
          · exact hwp.1
          · exact hin
          · exact beq_iff_eq.mp hwp.2
        rw [hweq]
  · intro k v hkv
    rw [buildMap_lookup] at hkv
    cases hlast : (vars.filter
        (fun w => inVxvars vxvars w && (strOfVar w.toVar == k))).getLast? with
    | none =>
        rw [hlast] at hkv
        simp [emptyDict] at hkv
    | some w =>
        rw [hlast] at hkv
        simp only [Option.some.injEq] at hkv
        subst hkv
        have hwf := List.mem_filter.mp (List.mem_of_getLast?_eq_some hlast)
        have hwp := hwf.2
        rw [Bool.and_eq_true] at hwp
        exact ⟨hwf.1, hwp.1, beq_iff_eq.mp hwp.2⟩

/-! Lemmas for the metconf renderer. -/
theorem renderBare_ok {v : ConfVal} (h : isScalar v = true) : ∃ s, renderBare v = Except.ok s := by
  cases v with
  | str s => exact ⟨s, rfl⟩
  | list _ => simp [isScalar] at h
  | map _ => simp [isScalar] at h

theorem renderQuoted_ok {v : ConfVal} (h : isScalar v = true) :
    ∃ s, renderQuoted v = Except.ok s := by
  cases v with
  | str s => exact ⟨"\"" ++ s ++ "\"", rfl⟩
  | list _ => simp [isScalar] at h
  | map _ => simp [isScalar] at h

theorem eMapList_ok {f : α → Except RenderErr β} :
    ∀ {l : List α}, (∀ a ∈ l, ∃ b, f a = Except.ok b) → ∃ bs, eMapList f l = Except.ok bs
  | [], _ => ⟨[], rfl⟩
  | a :: l, h => by
      obtain ⟨b, hb⟩ := h a (by simp)
      obtain ⟨bs, hbs⟩ := eMapList_ok (l := l) (fun x hx => h x (by simp [hx]))
      exact ⟨b :: bs, by simp [eMapList, hb, hbs]⟩

theorem eMapList_err {f : α → Except RenderErr β} :
    ∀ {l : List α},
      (∀ a ∈ l, (∃ b, f a = Except.ok b) ∨ ∃ k, f a = Except.error (RenderErr.unsupportedKey k)) →
      (∃ a ∈ l, ∃ k, f a = Except.error (RenderErr.unsupportedKey k)) →
      ∃ k, eMapList f l = Except.error (RenderErr.unsupportedKey k)
  | [], _, hex => by simp at hex
  | a :: l, hall, hex => by
      rcases hall a (by simp) with ⟨b, hb⟩ | ⟨k, hk⟩
      · have hex' : ∃ x ∈ l, ∃ k, f x = Except.error (RenderErr.unsupportedKey k) := by
          obtain ⟨x, hx, k, hk⟩ := hex
          rcases List.mem_cons.mp hx with rfl | hx'
          · rw [hb] at hk; exact absurd hk (by simp)
          · exact ⟨x, hx', k, hk⟩
        obtain ⟨k, hkl⟩ := eMapList_err (l := l) (fun x hx => hall x (by simp [hx])) hex'
        exact ⟨k, by simp [eMapList, hb, hkl]⟩
      · exact ⟨k, by simp [eMapList, hk]⟩

theorem renderSeq_ok {f : ConfVal → Except RenderErr String} (k : String) (level : Nat)
    (hf : ∀ x, isScalar x = true → ∃ s, f x = Except.ok s) {v : ConfVal}
    (h : isScalarList v = true) : ∃ lines, renderSeq k f v level = Except.ok lines := by
  cases v with
  | str _ => simp [isScalarList] at h
  | map _ => simp [isScalarList] at h
  | list vs =>
      cases vs with
      | nil => exact ⟨_, rfl⟩
      | cons a rest =>
          simp only [isScalarList, List.all_eq_true] at h
          obtain ⟨items, hitems⟩ :=
            eMapList_ok (f := f) (l := a :: rest) (fun x hx => hf x (h x hx))
          refine ⟨[indentStr (k ++ " = [") level] ++
            joinComma (items.map (fun s => [indentStr s (level + 1)])) ++
            [indentStr "];" level], ?_⟩
          simp [renderSeq, hitems]

theorem mem_insertSorted {p q : String × ConfVal} :
    ∀ {l : List (String × ConfVal)}, q ∈ insertSorted p l ↔ q = p ∨ q ∈ l
  | [] => by simp [insertSorted]
  | r :: rest => by
      simp only [insertSorted]
      split
      · simp [List.mem_cons]
      · simp only [List.mem_cons, mem_insertSorted (l := rest)]
        tauto

theorem mem_sortByKey {q : String × ConfVal} :
    ∀ {d : List (String × ConfVal)}, q ∈ sortByKey d ↔ q ∈ d
  | [] => Iff.rfl
  | p :: rest => by
      simp only [sortByKey, List.foldr_cons]
      rw [show List.foldr insertSorted [] rest = sortByKey rest from rfl] at *
      simp [mem_insertSorted, mem_sortByKey (d := rest)]

theorem collectGo_ok {f : String → ConfVal → Nat → Except RenderErr (List String)} :
    ∀ {d : List (String × ConfVal)} {level : Nat},
      (∀ p ∈ d, ∃ lines, f p.1 p.2 level = Except.ok lines) →
      ∃ lines, collectGo f d level = Except.ok lines
  | [], _, _ => ⟨[], rfl⟩
  | p :: rest, level, h => by
      obtain ⟨lines, hl⟩ := h p (by simp)
      obtain ⟨more, hm⟩ := collectGo_ok (d := rest) (fun q hq => h q (by simp [hq]))
      exact ⟨lines ++ more, by simp [collectGo, hl, hm]⟩

theorem collectGo_err {f : String → ConfVal → Nat → Except RenderErr (List String)} :
    ∀ {d : List (String × ConfVal)} {level : Nat},
      (∀ p ∈ d, (∃ lines, f p.1 p.2 level = Except.ok lines) ∨
        ∃ k, f p.1 p.2 level = Except.error (RenderErr.unsupportedKey k)) →
      (∃ p ∈ d, ∃ k, f p.1 p.2 level = Except.error (RenderErr.unsupportedKey k)) →
      ∃ k, collectGo f d level = Except.error (RenderErr.unsupportedKey k)
  | [], _, _, hex => by simp at hex
  | p :: rest, level, hall, hex => by
      rcases hall p (by simp) with ⟨lines, hl⟩ | ⟨k, hk⟩
      · have hex' : ∃ q ∈ rest, ∃ k, f q.1 q.2 level = Except.error (RenderErr.unsupportedKey k) := by
          obtain ⟨q, hq, k, hk⟩ := hex
          rcases List.mem_cons.mp hq with rfl | hq'
          · rw [hl] at hk; exact absurd hk (by simp)
          · exact ⟨q, hq', k, hk⟩
        obtain ⟨k, hkl⟩ := collectGo_err (d := rest) (fun q hq => hall q (by simp [hq])) hex'
        exact ⟨k, by simp [collectGo, hl, hkl]⟩
      · exact ⟨k, by simp [collectGo, hk]⟩

theorem collect_ok {f : String → ConfVal → Nat → Except RenderErr (List String)}
    {d : List (String × ConfVal)} {level : Nat}
    (h : ∀ p ∈ d, ∃ lines, f p.1 p.2 level = Except.ok lines) :
    ∃ lines, collect f d level = Except.ok lines :=
  collectGo_ok (fun p hp => h p (mem_sortByKey.mp hp))

theorem collect_err {f : String → ConfVal → Nat → Except RenderErr (List String)}
    {d : List (String × ConfVal)} {level : Nat}
    (hall : ∀ p ∈ d, (∃ lines, f p.1 p.2 level = Except.ok lines) ∨
      ∃ k, f p.1 p.2 level = Except.error (RenderErr.unsupportedKey k))
    (hex : ∃ p ∈ d, ∃ k, f p.1 p.2 level = Except.error (RenderErr.unsupportedKey k)) :
    ∃ k, collect f d level = Except.error (RenderErr.unsupportedKey k) := by
  refine collectGo_err (fun p hp => hall p (mem_sortByKey.mp hp)) ?_
  obtain ⟨p, hp, hk⟩ := hex
  exact ⟨p, mem_sortByKey.mpr hp, hk⟩

theorem bool_eq_false {b : Bool} (h : ¬b = true) : b = false := by
  cases b
  · rfl
  · exact absurd rfl h

theorem scalarKV_ok {v : ConfVal} (g : ConfVal → Except RenderErr String)
    (hg : ∀ x, isScalar x = true → ∃ s, g x = Except.ok s)
    (h : isScalar v = true) (k : String) (level : Nat) :
    ∃ lines,
      (match g v with
       | Except.ok s => Except.ok (kvpairLines k s level)
       | Except.error e => Except.error e) = Except.ok lines := by
  obtain ⟨s, hs⟩ := hg v h
  exact ⟨kvpairLines k s level, by simp [hs]⟩

theorem fieldMappingKV_spec (k : String) (v : ConfVal) (level : Nat)
    (hwf : fieldEntryWF k v = true) :
    (fieldEntryRec k = true → ∃ lines, fieldMappingKV k v level = Except.ok lines) ∧
    (fieldEntryRec k = false →
      fieldMappingKV k v level = Except.error (RenderErr.unsupportedKey k)) := by
  constructor
  · intro hrec
    by_cases h1 : (k == "cat_thresh") = true
    · have hsl : isScalarList v = true := by simpa [fieldEntryWF, h1] using hwf
      simpa [fieldMappingKV, h1] using
        renderSeq_ok k level (fun x hx => renderBare_ok hx) hsl
    · by_cases h2 : (k == "cnt_thresh") = true
      · have hsl : isScalarList v = true := by simpa [fieldEntryWF, h1, h2] using hwf
        simpa [fieldMappingKV, h1, h2] using
          renderSeq_ok k level (fun x hx => renderBare_ok hx) hsl
      · by_cases h3 : (k == "level") = true
        · have hsl : isScalarList v = true := by simpa [fieldEntryWF, h1, h2, h3] using hwf
          simpa [fieldMappingKV, h1, h2, h3] using
            renderSeq_ok k level (fun x hx => renderQuoted_ok hx) hsl
        · by_cases h4 : (k == "name") = true
          · have hs : isScalar v = true := by simpa [fieldEntryWF, h1, h2, h3, h4] using hwf
            obtain ⟨lines, hl⟩ := scalarKV_ok renderQuoted (fun x hx => renderQuoted_ok hx) hs k level
            exact ⟨lines, by simpa [fieldMappingKV, h1, h2, h3, h4] using hl⟩
          · by_cases h5 : (k == "set_attr_level") = true
            · have hs : isScalar v = true := by
                simpa [fieldEntryWF, h1, h2, h3, h4, h5] using hwf
              obtain ⟨lines, hl⟩ :=
                scalarKV_ok renderQuoted (fun x hx => renderQuoted_ok hx) hs k level
              exact ⟨lines, by simpa [fieldMappingKV, h1, h2, h3, h4, h5] using hl⟩
            · rw [fieldEntryRec, bool_eq_false h1, bool_eq_false h2, bool_eq_false h3,
                bool_eq_false h4, bool_eq_false h5] at hrec
              simp at hrec
  · intro hrec
    simp only [fieldEntryRec, Bool.or_eq_false_iff] at hrec
    obtain ⟨⟨⟨⟨n1, n2⟩, n3⟩, n4⟩, n5⟩ := hrec
    simp [fieldMappingKV, n1, n2, n3, n4, n5]

theorem fieldMapping_spec (d : List (String × ConfVal)) (level : Nat)
    (hwf : d.all (fun p => fieldEntryWF p.1 p.2) = true) :
    (d.all (fun p => fieldEntryRec p.1) = true →
      ∃ lines, fieldMapping d level = Except.ok lines) ∧
    (d.all (fun p => fieldEntryRec p.1) = false →
      ∃ k, fieldMapping d level = Except.error (RenderErr.unsupportedKey k)) := by
  rw [List.all_eq_true] at hwf
  constructor
  · intro hrec
    rw [List.all_eq_true] at hrec
    obtain ⟨inner, hi⟩ := @collect_ok fieldMappingKV d (level + 1)
      (fun p hp => (fieldMappingKV_spec p.1 p.2 (level + 1) (hwf p hp)).1 (hrec p hp))
    exact ⟨[indentStr "\x7b" level] ++ inner ++ [indentStr "\x7d" level],
      by simp [fieldMapping, hi]⟩
  · intro hrec
    rw [List.all_eq_false] at hrec
    obtain ⟨p, hp, hpr⟩ := hrec
    have hall : ∀ q ∈ d, (∃ lines, fieldMappingKV q.1 q.2 (level + 1) = Except.ok lines) ∨
        ∃ k, fieldMappingKV q.1 q.2 (level + 1) = Except.error (RenderErr.unsupportedKey k) := by
      intro q hq
      by_cases h : fieldEntryRec q.1 = true
      · exact Or.inl ((fieldMappingKV_spec q.1 q.2 (level + 1) (hwf q hq)).1 h)
      · exact Or.inr ⟨q.1, (fieldMappingKV_spec q.1 q.2 (level + 1) (hwf q hq)).2 (bool_eq_false h)⟩
    obtain ⟨k, hk⟩ := collect_err hall
      ⟨p, hp, p.1, (fieldMappingKV_spec p.1 p.2 (level + 1) (hwf p hp)).2 (bool_eq_false hpr)⟩
    exact ⟨k, by simp [fieldMapping, hk]⟩

theorem fieldSequence_spec (k : String) (v : ConfVal) (level : Nat)
    (hwf : isFieldMapList v = true) :
    (fieldListRec v = true → ∃ lines, fieldSequence k v level = Except.ok lines) ∧
    (fieldListRec v = false →
      ∃ q, fieldSequence k v level = Except.error (RenderErr.unsupportedKey q)) := by
  cases v with
  | str _ => simp [isFieldMapList] at hwf
  | map _ => simp [isFieldMapList] at hwf
  | list ds =>
      simp only [isFieldMapList, List.all_eq_true] at hwf
      have hspec : ∀ d ∈ ds,
          (fieldMapRec d = true → ∃ lines, fieldItem (level + 1) d = Except.ok lines) ∧
          (fieldMapRec d = false →
            ∃ q, fieldItem (level + 1) d = Except.error (RenderErr.unsupportedKey q)) := by
        intro d hd
        have hdwf := hwf d hd
        cases d with
        | str _ => simp [fieldMapWF] at hdwf
        | list _ => simp [fieldMapWF] at hdwf
        | map dm =>
            simp only [fieldMapWF] at hdwf
            simp only [fieldMapRec, fieldItem]
            exact fieldMapping_spec dm (level + 1) hdwf
      constructor
      · intro hrec
        simp only [fieldListRec, List.all_eq_true] at hrec
        obtain ⟨chunks, hc⟩ := eMapList_ok (l := ds)
          (fun d hd => (hspec d hd).1 (hrec d hd))
        exact ⟨[indentStr (k ++ " = [") level] ++ joinComma chunks ++ [indentStr "];" level],
          by simp [fieldSequence, hc]⟩
      · intro hrec
        simp only [fieldListRec, List.all_eq_false] at hrec
        obtain ⟨d, hd, hdr⟩ := hrec
        have hall : ∀ e ∈ ds, (∃ lines, fieldItem (level + 1) e = Except.ok lines) ∨
            ∃ q, fieldItem (level + 1) e = Except.error (RenderErr.unsupportedKey q) := by
          intro e he
          by_cases h : fieldMapRec e = true
          · exact Or.inl ((hspec e he).1 h)
          · exact Or.inr ((hspec e he).2 (bool_eq_false h))
        obtain ⟨q, hq⟩ := eMapList_err (l := ds) hall ⟨d, hd, (hspec d hd).2 (bool_eq_false hdr)⟩
        exact ⟨q, by simp [fieldSequence, hq]⟩

theorem fcstObsKV_spec (k : String) (v : ConfVal) (level : Nat)
    (hwf : fcstObsEntryWF k v = true) :
    (fcstObsEntryRec k v = true → ∃ lines, fcstOrObsKV k v level = Except.ok lines) ∧
    (fcstObsEntryRec k v = false →
      ∃ x, fcstOrObsKV k v level = Except.error (RenderErr.unsupportedKey x)) := by
  by_cases h : (k == "field") = true
  · have hwfv : isFieldMapList v = true := by simpa [fcstObsEntryWF, h] using hwf
    have hfs := fieldSequence_spec k v level hwfv
    constructor
    · intro hrec
      have hlr : fieldListRec v = true := by simpa [fcstObsEntryRec, h] using hrec
      simpa [fcstOrObsKV, h] using hfs.1 hlr
    · intro hrec
      have hlr : fieldListRec v = false := by
        rw [fcstObsEntryRec, h] at hrec
        simpa using hrec
      obtain ⟨q, hq⟩ := hfs.2 hlr
      exact ⟨q, by simpa [fcstOrObsKV, h] using hq⟩
  · constructor
    · intro hrec
      rw [fcstObsEntryRec, bool_eq_false h] at hrec
      simp at hrec
    · intro _
      exact ⟨k, by simp [fcstOrObsKV, bool_eq_false h]⟩

theorem maskKV_spec (k : String) (v : ConfVal) (level : Nat)
    (hwf : maskEntryWF k v = true) :
    (maskEntryRec k = true → ∃ lines, maskKV k v level = Except.ok lines) ∧
    (maskEntryRec k = false → maskKV k v level = Except.error (RenderErr.unsupportedKey k)) := by
  by_cases h : (k == "grid" || k == "poly") = true
  · have hsl : isScalarList v = true := by simpa [maskEntryWF, h] using hwf
    constructor
    · intro _
      simpa [maskKV, h] using renderSeq_ok k level (fun x hx => renderQuoted_ok hx) hsl
    · intro hrec
      rw [maskEntryRec] at hrec
      exact absurd h (by simp [hrec])
  · constructor
    · intro hrec
      rw [maskEntryRec] at hrec
      exact absurd hrec h
    · intro _
      simp [maskKV, bool_eq_false h]

theorem nbrhdKV_spec (k : String) (v : ConfVal) (level : Nat)
    (hwf : nbrhdEntryWF k v = true) :
    (nbrhdEntryRec k = true → ∃ lines, nbrhdKV k v level = Except.ok lines) ∧
    (nbrhdEntryRec k = false →
      nbrhdKV k v level = Except.error (RenderErr.unsupportedKey k)) := by
  by_cases h1 : (k == "shape") = true
  · have hs : isScalar v = true := by simpa [nbrhdEntryWF, h1] using hwf
    constructor
    · intro _
      obtain ⟨lines, hl⟩ := scalarKV_ok renderBare (fun x hx => renderBare_ok hx) hs k level
      exact ⟨lines, by simpa [nbrhdKV, h1] using hl⟩
    · intro hrec
      rw [nbrhdEntryRec, h1] at hrec
      simp at hrec
  · by_cases h2 : (k == "width") = true
    · have hsl : isScalarList v = true := by simpa [nbrhdEntryWF, bool_eq_false h1, h2] using hwf
      constructor
      · intro _
        simpa [nbrhdKV, bool_eq_false h1, h2] using
          renderSeq_ok k level (fun x hx => renderBare_ok hx) hsl
      · intro hrec
        rw [nbrhdEntryRec, bool_eq_false h1, h2] at hrec
        simp at hrec
    · constructor
      · intro hrec
        rw [nbrhdEntryRec, bool_eq_false h1, bool_eq_false h2] at hrec
        simp at hrec
      · intro _
        simp [nbrhdKV, bool_eq_false h1, bool_eq_false h2]

theorem outputFlagKV_spec (k : String) (v : ConfVal) (level : Nat)
    (hwf : outputFlagEntryWF k v = true) :
    (outputFlagEntryRec k = true → ∃ lines, outputFlagKV k v level = Except.ok lines) ∧
    (outputFlagEntryRec k = false →
      outputFlagKV k v level = Except.error (RenderErr.unsupportedKey k)) := by
  by_cases h : (k == "cnt" || k == "cts" || k == "nbrcnt") = true
  · have hs : isScalar v = true := by simpa [outputFlagEntryWF, h] using hwf
    constructor
    · intro _
      obtain ⟨lines, hl⟩ := scalarKV_ok renderBare (fun x hx => renderBare_ok hx) hs k level
      exact ⟨lines, by simpa [outputFlagKV, h] using hl⟩
    · intro hrec
      rw [outputFlagEntryRec] at hrec
      exact absurd h (by simp [hrec])
  · constructor
    · intro hrec
      rw [outputFlagEntryRec] at hrec
      exact absurd hrec h
    · intro _
      simp [outputFlagKV, bool_eq_false h]

theorem regridKV_spec (k : String) (v : ConfVal) (level : Nat)
    (hwf : regridEntryWF k v = true) :
    (regridEntryRec k = true → ∃ lines, regridKV k v level = Except.ok lines) ∧
    (regridEntryRec k = false →
      regridKV k v level = Except.error (RenderErr.unsupportedKey k)) := by
  by_cases h : (k == "method" || k == "to_grid") = true
  · have hs : isScalar v = true := by simpa [regridEntryWF, h] using hwf
    constructor
    · intro _
      obtain ⟨lines, hl⟩ := scalarKV_ok renderBare (fun x hx => renderBare_ok hx) hs k level
      exact ⟨lines, by simpa [regridKV, h] using hl⟩
    · intro hrec
      rw [regridEntryRec] at hrec
      exact absurd h (by simp [hrec])
  · constructor
    · intro hrec
      rw [regridEntryRec] at hrec
      exact absurd hrec h
    · intro _
      simp [regridKV, bool_eq_false h]

theorem subMap_spec (f : String → ConfVal → Nat → Except RenderErr (List String))
    (entryWF entryRec : String → ConfVal → Bool)
    (hspec : ∀ (q : String) (w : ConfVal) (level : Nat), entryWF q w = true →
      (entryRec q w = true → ∃ lines, f q w level = Except.ok lines) ∧
      (entryRec q w = false → ∃ x, f q w level = Except.error (RenderErr.unsupportedKey x)))
    (k : String) (v : ConfVal) (level : Nat)
    (hwf : isMapAll entryWF v = true) :
    (mapEntriesRec entryRec v = true → ∃ lines, subMap f k v level = Except.ok lines) ∧
    (mapEntriesRec entryRec v = false →
      ∃ x, subMap f k v level = Except.error (RenderErr.unsupportedKey x)) := by
  cases v with
  | str _ => simp [isMapAll] at hwf
  | list _ => simp [isMapAll] at hwf
  | map dm =>
      simp only [isMapAll, List.all_eq_true] at hwf
      constructor
      · intro hrec
        simp only [mapEntriesRec, List.all_eq_true] at hrec
        obtain ⟨inner, hi⟩ := @collect_ok f dm (level + 1)
          (fun p hp => (hspec p.1 p.2 (level + 1) (hwf p hp)).1 (hrec p hp))
        exact ⟨mappingLines k inner level, by simp [subMap, hi]⟩
      · intro hrec
        simp only [mapEntriesRec, List.all_eq_false] at hrec
        obtain ⟨p, hp, hpr⟩ := hrec
        have hall : ∀ q ∈ dm, (∃ lines, f q.1 q.2 (level + 1) = Except.ok lines) ∨
            ∃ x, f q.1 q.2 (level + 1) = Except.error (RenderErr.unsupportedKey x) := by
          intro q hq
          by_cases h : entryRec q.1 q.2 = true
          · exact Or.inl ((hspec q.1 q.2 (level + 1) (hwf q hq)).1 h)
          · exact Or.inr ((hspec q.1 q.2 (level + 1) (hwf q hq)).2 (bool_eq_false h))
        obtain ⟨x, hx⟩ := collect_err hall
          ⟨p, hp, (hspec p.1 p.2 (level + 1) (hwf p hp)).2 (bool_eq_false hpr)⟩
        exact ⟨x, by simp [subMap, hx]⟩

theorem topKV_spec (k : String) (v : ConfVal) (level : Nat)
    (hwf : topEntryWF k v = true) :
    (topEntryRec k v = true → ∃ lines, topKV k v level = Except.ok lines) ∧
    (topEntryRec k v = false →
      ∃ x, topKV k v level = Except.error (RenderErr.unsupportedKey x)) := by
  by_cases h1 : (k == "fcst" || k == "obs") = true
  · have hm : isMapAll fcstObsEntryWF v = true := by simpa [topEntryWF, h1] using hwf
    have hs := subMap_spec fcstOrObsKV fcstObsEntryWF fcstObsEntryRec
      (fun q w lv hq => fcstObsKV_spec q w lv hq) k v level hm
    constructor
    · intro hrec
      have : mapEntriesRec fcstObsEntryRec v = true := by simpa [topEntryRec, h1] using hrec
      simpa [topKV, h1] using hs.1 this
    · intro hrec
      have : mapEntriesRec fcstObsEntryRec v = false := by
        rw [topEntryRec] at hrec
        rw [h1] at hrec
        simpa using hrec
      obtain ⟨x, hx⟩ := hs.2 this
      exact ⟨x, by simpa [topKV, h1] using hx⟩
  · by_cases h2 : (k == "model" || k == "obtype" || k == "output_prefix" || k == "tmp_dir") = true
    · have hsv : isScalar v = true := by simpa [topEntryWF, bool_eq_false h1, h2] using hwf
      constructor
      · intro _
        obtain ⟨lines, hl⟩ := scalarKV_ok renderQuoted (fun x hx => renderQuoted_ok hx) hsv k level
        exact ⟨lines, by simpa [topKV, bool_eq_false h1, h2] using hl⟩
      · intro hrec
        rw [topEntryRec, bool_eq_false h1, h2] at hrec
        simp at hrec
    · by_cases h3 : (k == "mask") = true
      · have hm : isMapAll maskEntryWF v = true := by
          simpa [topEntryWF, bool_eq_false h1, bool_eq_false h2, h3] using hwf
        have hs := subMap_spec maskKV maskEntryWF (fun q _ => maskEntryRec q)
          (fun q w lv hq => ⟨fun hr => (maskKV_spec q w lv hq).1 hr,
            fun hr => ⟨q, (maskKV_spec q w lv hq).2 hr⟩⟩) k v level hm
        constructor
        · intro hrec
          have : mapEntriesRec (fun q _ => maskEntryRec q) v = true := by
            simpa [topEntryRec, bool_eq_false h1, bool_eq_false h2, h3] using hrec
          simpa [topKV, bool_eq_false h1, bool_eq_false h2, h3] using hs.1 this
        · intro hrec
          have : mapEntriesRec (fun q _ => maskEntryRec q) v = false := by
            rw [topEntryRec, bool_eq_false h1, bool_eq_false h2, h3] at hrec
            simpa using hrec
          obtain ⟨x, hx⟩ := hs.2 this
          exact ⟨x, by simpa [topKV, bool_eq_false h1, bool_eq_false h2, h3] using hx⟩
      · by_cases h4 : (k == "nbrhd") = true
        · have hm : isMapAll nbrhdEntryWF v = true := by
            simpa [topEntryWF, bool_eq_false h1, bool_eq_false h2, bool_eq_false h3, h4] using hwf
          have hs := subMap_spec nbrhdKV nbrhdEntryWF (fun q _ => nbrhdEntryRec q)
            (fun q w lv hq => ⟨fun hr => (nbrhdKV_spec q w lv hq).1 hr,
              fun hr => ⟨q, (nbrhdKV_spec q w lv hq).2 hr⟩⟩) k v level hm
          constructor
          · intro hrec
            have : mapEntriesRec (fun q _ => nbrhdEntryRec q) v = true := by
              simpa [topEntryRec, bool_eq_false h1, bool_eq_false h2, bool_eq_false h3, h4]
                using hrec
            simpa [topKV, bool_eq_false h1, bool_eq_false h2, bool_eq_false h3, h4] using hs.1 this
          · intro hrec
            have : mapEntriesRec (fun q _ => nbrhdEntryRec q) v = false := by
              rw [topEntryRec, bool_eq_false h1, bool_eq_false h2, bool_eq_false h3, h4] at hrec
              simpa using hrec
            obtain ⟨x, hx⟩ := hs.2 this
            refine ⟨x, ?_⟩
            simpa [topKV, bool_eq_false h1, bool_eq_false h2, bool_eq_false h3, h4] using hx
        · by_cases h5 : (k == "nc_pairs_flag") = true
          · have hsv : isScalar v = true := by
              simpa [topEntryWF, bool_eq_false h1, bool_eq_false h2, bool_eq_false h3,
                bool_eq_false h4, h5] using hwf
            constructor
            · intro _
              obtain ⟨lines, hl⟩ :=
                scalarKV_ok renderBare (fun x hx => renderBare_ok hx) hsv k level
              refine ⟨lines, ?_⟩
              simpa [topKV, bool_eq_false h1, bool_eq_false h2, bool_eq_false h3, bool_eq_false h4, h5] using hl
            · intro hrec
              rw [topEntryRec, bool_eq_false h1, bool_eq_false h2, bool_eq_false h3,
                bool_eq_false h4, h5] at hrec
              simp at hrec
          · by_cases h6 : (k == "output_flag") = true
            · have hm : isMapAll outputFlagEntryWF v = true := by
                simpa [topEntryWF, bool_eq_false h1, bool_eq_false h2, bool_eq_false h3,
                  bool_eq_false h4, bool_eq_false h5, h6] using hwf
              have hs := subMap_spec outputFlagKV outputFlagEntryWF
                (fun q _ => outputFlagEntryRec q)
                (fun q w lv hq => ⟨fun hr => (outputFlagKV_spec q w lv hq).1 hr,
                  fun hr => ⟨q, (outputFlagKV_spec q w lv hq).2 hr⟩⟩) k v level hm
              constructor
              · intro hrec
                have : mapEntriesRec (fun q _ => outputFlagEntryRec q) v = true := by
                  simpa [topEntryRec, bool_eq_false h1, bool_eq_false h2, bool_eq_false h3,
                    bool_eq_false h4, bool_eq_false h5, h6] using hrec
                simpa [topKV, bool_eq_false h1, bool_eq_false h2, bool_eq_false h3,
                  bool_eq_false h4, bool_eq_false h5, h6] using hs.1 this
              · intro hrec
                have : mapEntriesRec (fun q _ => outputFlagEntryRec q) v = false := by
                  rw [topEntryRec, bool_eq_false h1, bool_eq_false h2, bool_eq_false h3,
                    bool_eq_false h4, bool_eq_false h5, h6] at hrec
                  simpa using hrec
                obtain ⟨x, hx⟩ := hs.2 this
                refine ⟨x, ?_⟩
                simpa [topKV, bool_eq_false h1, bool_eq_false h2, bool_eq_false h3, bool_eq_false h4, bool_eq_false h5, h6] using hx
            · by_cases h7 : (k == "regrid") = true
              · have hm : isMapAll regridEntryWF v = true := by
                  simpa [topEntryWF, bool_eq_false h1, bool_eq_false h2, bool_eq_false h3,
                    bool_eq_false h4, bool_eq_false h5, bool_eq_false h6, h7] using hwf
                have hs := subMap_spec regridKV regridEntryWF (fun q _ => regridEntryRec q)
                  (fun q w lv hq => ⟨fun hr => (regridKV_spec q w lv hq).1 hr,
                    fun hr => ⟨q, (regridKV_spec q w lv hq).2 hr⟩⟩) k v level hm
                constructor
                · intro hrec
                  have : mapEntriesRec (fun q _ => regridEntryRec q) v = true := by
                    simpa [topEntryRec, bool_eq_false h1, bool_eq_false h2, bool_eq_false h3,
                      bool_eq_false h4, bool_eq_false h5, bool_eq_false h6, h7] using hrec
                  simpa [topKV, bool_eq_false h1, bool_eq_false h2, bool_eq_false h3,
                    bool_eq_false h4, bool_eq_false h5, bool_eq_false h6, h7] using hs.1 this
                · intro hrec
                  have : mapEntriesRec (fun q _ => regridEntryRec q) v = false := by
                    rw [topEntryRec, bool_eq_false h1, bool_eq_false h2, bool_eq_false h3,
                      bool_eq_false h4, bool_eq_false h5, bool_eq_false h6, h7] at hrec
                    simpa using hrec
                  obtain ⟨x, hx⟩ := hs.2 this
                  refine ⟨x, ?_⟩
                  simpa [topKV, bool_eq_false h1, bool_eq_false h2, bool_eq_false h3, bool_eq_false h4, bool_eq_false h5, bool_eq_false h6, h7] using hx
              · constructor
                · intro hrec
                  rw [topEntryRec, bool_eq_false h1, bool_eq_false h2, bool_eq_false h3,
                    bool_eq_false h4, bool_eq_false h5, bool_eq_false h6,
                    bool_eq_false h7] at hrec
                  simp at hrec
                · intro _
                  refine ⟨k, ?_⟩
                  simp [topKV, bool_eq_false h1, bool_eq_false h2, bool_eq_false h3, bool_eq_false h4, bool_eq_false h5, bool_eq_false h6, bool_eq_false h7]

/-- C9: for a shape-correct configuration mapping, `render` raises the
hard unsupported-key error (`_fail`) iff some key at some nesting level
is not among the keys recognized at that level (top level: fcst, obs,
model, obtype, output_prefix, tmp_dir, mask, nbrhd, nc_pairs_flag,
output_flag, regrid; and correspondingly for nested mappings); a
mapping with only recognized keys serializes without error, each
nesting level indented by exactly two further spaces (`_indent`
prefixes `2 * level` spaces, and every nested `_collect` call passes
`level + 1`). -/
theorem render_config_errors (config : List (String × ConfVal)) (hwf : configWF config = true) :
    (configRecognized config = true → ∃ s, render config = Except.ok s) ∧
    (configRecognized config = false →
      ∃ k, render config = Except.error (RenderErr.unsupportedKey k)) ∧
    (∀ (v : String) (level : Nat),
      (indentStr v level).data = List.replicate (2 * level) ' ' ++ v.data) := by
  rw [configWF, List.all_eq_true] at hwf
  refine ⟨?_, ?_, ?_⟩
  · intro hrec
    rw [configRecognized, List.all_eq_true] at hrec
    obtain ⟨lines, hl⟩ := @collect_ok topKV config 0
      (fun p hp => (topKV_spec p.1 p.2 0 (hwf p hp)).1 (hrec p hp))
    exact ⟨joinLines lines, by simp [render, hl]⟩
  · intro hrec
    rw [configRecognized, List.all_eq_false] at hrec
    obtain ⟨p, hp, hpr⟩ := hrec
    have hall : ∀ q ∈ config, (∃ lines, topKV q.1 q.2 0 = Except.ok lines) ∨
        ∃ x, topKV q.1 q.2 0 = Except.error (RenderErr.unsupportedKey x) := by
      intro q hq
      by_cases h : topEntryRec q.1 q.2 = true
      · exact Or.inl ((topKV_spec q.1 q.2 0 (hwf q hq)).1 h)
      · exact Or.inr ((topKV_spec q.1 q.2 0 (hwf q hq)).2 (bool_eq_false h))
    obtain ⟨x, hx⟩ := collect_err hall
      ⟨p, hp, (topKV_spec p.1 p.2 0 (hwf p hp)).2 (bool_eq_false hpr)⟩
    exact ⟨x, by simp [render, hx]⟩
  · intro v level
    simp [indentStr]

/-- Witness for C5 at the specification's example index. -/
theorem grib_index_data_spec_witness :
    ∃ m, gribIndexData exampleVxvars exampleIndexText = some m ∧
      exampleVars.length = exampleRecords.length ∧
      (∀ i : Nat, i < exampleRecords.length →
        ∃ r v off, exampleRecords[i]? = some r ∧ exampleVars[i]? = some v ∧
          offsetOf r = some off ∧
          (∃ name levstr noff, r[3]? = some name ∧ r[4]? = some levstr ∧
            v = mkGFS name levstr off (noff - 1)) ∧
          v.firstbyte = off ∧
          (i + 1 < exampleRecords.length →
            ∃ noff, offAt exampleRecords (i + 1) = some noff ∧ v.lastbyte = some (noff - 1)) ∧
          (i + 1 = exampleRecords.length → v.lastbyte = none)) ∧
      (∀ v ∈ exampleVars, inVxvars exampleVxvars v = true →
        m (strOfVar v.toVar) = some v) ∧
      (∀ k v, m k = some v → v ∈ exampleVars ∧ inVxvars exampleVxvars v = true ∧
        strOfVar v.toVar = k) :=
  grib_index_data_spec exampleVxvars exampleIndexText exampleRecords exampleVars
    (by decide) (by decide)
    (by
      intro i h
      rw [show exampleRecords.length = 3 from rfl] at h
      have hi : i = 0 ∨ i = 1 := by omega
      rcases hi with rfl | rfl
      · exact ⟨100, by decide, by decide⟩
      · exact ⟨250, by decide, by decide⟩)
    (by decide)

/-- Witness for C9: the repository's test configuration renders without
error; a config whose only key is the unrecognized `foo` raises the
unsupported-key error. -/
theorem render_config_errors_witness :
    (∃ s, render exampleConfig = Except.ok s) ∧
    (∃ k, render exampleBadConfig = Except.error (RenderErr.unsupportedKey k)) :=
  ⟨(render_config_errors exampleConfig (by decide)).1 (by decide),
   (render_config_errors exampleBadConfig (by decide)).2.1 (by decide)⟩

end Wxvx
